import Mathlib

/-!
libriscv: the Machine facade, instruction decoding and the decoder cache

A shallow embedding of `Machine<W>` from `lib/libriscv/machine_inline.hpp`
(the run loop `simulate`, the system-call table and its dispatch
`system_call`, the call set-up `setup_call` / `vmcall`, `realign_stack`,
`reset`, `copy_to_guest`), of `CPU<W>::decode` / `CPU<W>::execute` from
`rv32i.cpp` and `rv64i.cpp`, and of `Memory<W>::generate_decoder_cache` from
`decoder_cache.cpp` with the `DecoderCache` of `decoder_cache.hpp`.

Conventions of the embedding.

* `address_t` (an unsigned integer of `W` bytes) and the 64-bit retired
  counter are natural numbers; a reduction `% 2 ^ _` is written wherever the
  source performs arithmetic that can leave the range.
* A C++ member function that mutates the machine and may throw is a function
  `Machine H → Outcome (Machine H) α`: it either returns a value together
  with the machine it leaves, or raises a failure together with the machine
  as it is at the point of the throw.
* `syscall_t` is an abstract type `H` of handler values; the parameter
  `call` gives each handler its effect on a machine. The handler table
  stores values of `H`, so a handler may itself change the table.
* `cpu.simulate()`, `cpu.jump()`, `cpu.reset()`, `memory.reset()`,
  `memory.memcpy()`, `memory.resolve_address()` and
  `DecoderCache::translate` live in files outside this development and are
  parameters of the functions that call them; so is the decoding tree of
  `instr_decoding.inc`.
* The host is taken as LP64: `size_t` and `long` have 64 bits.
* `printf` / `fprintf` diagnostics are not modelled.
-/

namespace riscv

/-! ## Constants -/

/-- The value of `SYSCALL_EBREAK_NR` in `common.hpp` (its default, `0`). -/
def SYSCALL_EBREAK_NR : Int := 0

/-- The constant `SYSCALL_EBREAK` of `common.hpp`. -/
def SYSCALL_EBREAK : Int := SYSCALL_EBREAK_NR

/-- Modelled from the spec: the register index `RISCV::REG_RA` (declared in a
header that is not among the sources); the return-address register `ra` is
`x1` in the RISC-V ABI. -/
def REG_RA : Nat := 1

/-- Modelled from the spec: the register index `RISCV::REG_SP`; the stack
pointer `sp` is `x2` in the RISC-V ABI. -/
def REG_SP : Nat := 2

/-- Modelled from the spec: the register index `RISCV::REG_ARG0`; the first
argument register `a0` is `x10` in the RISC-V ABI. -/
def REG_ARG0 : Nat := 10

/-- Modelled from the spec: the register index `RISCV::REG_RETVAL`; the ABI
return register is `a0`, `x10`. -/
def REG_RETVAL : Nat := 10

/-- The host constant `ENOSYS` of `<errno.h>` (38 on Linux). -/
def ENOSYS : Int := 38

/-- Modelled from the spec: the exception tags carried by `MachineException`
(the enumeration is declared in a header that is not among the sources; the
tags are those of the spec's error taxonomy). -/
inductive ExceptionKind where
  | PROTECTION_FAULT
  | EXECUTION_SPACE_PROTECTION_FAULT
  | MISALIGNED_ACCESS
  | INVALID_ALIGNMENT
  | UNIMPLEMENTED_INSTRUCTION
  | UNIMPLEMENTED_INSTRUCTION_LENGTH
  | UNHANDLED_SYSCALL
  | UNKNOWN_RELOCATION
  | INVALID_ARGUMENT
  | STRING_OVER_LIMIT
  | OUT_OF_MEMORY
  | DEADLOCK
  deriving DecidableEq, Repr

/-- The ways an operation of the machine can fail. -/
inductive Failure where
  /-- A thrown `MachineException(kind, message, data)`. -/
  | machineException (kind : ExceptionKind) (message : String) (data : Int)
  /-- A failed `assert(...)`: the process aborts. -/
  | assertionFailed
  /-- The `std::out_of_range` of a container's `at()` on a missing key. -/
  | outOfRange
  /-- Any other failure of a collaborator (a handler, a CPU step). -/
  | other (tag : Nat)
  deriving DecidableEq, Repr

/-- The result of running a mutating, possibly throwing member function:
the value returned and the state left, or the failure and the state at the
point of the throw. -/
inductive Outcome (σ α : Type) where
  | ok (val : α) (state : σ)
  | raised (e : Failure) (state : σ)

/-- The state an outcome carries: the state left on return, or the state at
the point of the throw. -/
def Outcome.state {σ α : Type} : Outcome σ α → σ
  | .ok _ s => s
  | .raised _ s => s

/-! ## Machine state -/

/-- The state of a `Machine<W>` that the facade's functions read or write.
`regs` is the integer register file `cpu.registers()` (32 registers, indexed
`0..31`), `pc` the program counter, `counter` the 64-bit retired-instruction
counter; `m_syscall_handlers` is the handler table (a map from `int` to
`syscall_t`), `m_exit_address` the value returned by
`memory.exit_address()`, `m_start_address` the value returned by
`memory.start_address()`. -/
structure Machine (H : Type) where
  regs : Nat → Nat
  pc : Nat
  counter : Nat
  m_stopped : Bool
  m_syscall_handlers : Int → Option H
  throw_on_unhandled_syscall : Bool
  m_exit_address : Nat
  m_start_address : Nat

namespace Machine

variable {H : Type}

/-- The assignment `cpu.reg(idx) = value`. -/
def setReg (m : Machine H) (idx value : Nat) : Machine H :=
  { m with regs := fun r => if r = idx then value else m.regs r }

/-- The read `cpu.reg(idx)`. -/
def reg (m : Machine H) (idx : Nat) : Nat := m.regs idx

/-- The member `Machine<W>::stop(bool v)`. -/
def stop (m : Machine H) (v : Bool) : Machine H :=
  { m with m_stopped := v }

/-- The member `Machine<W>::stopped()`. -/
def stopped (m : Machine H) : Bool := m.m_stopped

/-! ## The run loop -/

/-- The loop of the branch `max_instr != 0` of `simulate`, with `limit` the
updated `max_instr`:
`while (!stopped()) { cpu.simulate(); if (counter >= max_instr) break; }`.
`fuel` bounds the number of evaluations of the loop condition (`none` when
it runs out); `executed` counts the completed calls of `cpu.simulate()` and
is returned as the value of the outcome. -/
def simulate_bounded (cpu_simulate : Machine H → Outcome (Machine H) Unit)
    (limit : Nat) : Nat → Nat → Machine H → Option (Outcome (Machine H) Nat)
  | 0, _, _ => none
  | fuel + 1, executed, m =>
    if m.stopped then some (.ok executed m)
    else
      match cpu_simulate m with
      | .raised e m' => some (.raised e m')
      | .ok _ m' =>
        if m'.counter ≥ limit then some (.ok (executed + 1) m')
        else simulate_bounded cpu_simulate limit fuel (executed + 1) m'

/-- The loop of the branch `max_instr == 0` of `simulate`:
`while (!stopped()) { cpu.simulate(); }`, with `fuel` and `executed` as in
`simulate_bounded`. -/
def simulate_unbounded (cpu_simulate : Machine H → Outcome (Machine H) Unit) :
    Nat → Nat → Machine H → Option (Outcome (Machine H) Nat)
  | 0, _, _ => none
  | fuel + 1, executed, m =>
    if m.stopped then some (.ok executed m)
    else
      match cpu_simulate m with
      | .raised e m' => some (.raised e m')
      | .ok _ m' => simulate_unbounded cpu_simulate fuel (executed + 1) m'

/-- The member `Machine<W>::simulate(uint64_t max_instr)`. The stop flag is
cleared; with `max_instr != 0` the limit is `max_instr + counter` in 64-bit
arithmetic. The value of the outcome is the number of completed calls of
`cpu.simulate()`; the result is `none` when `fuel` loop iterations do not
suffice. -/
def simulate (cpu_simulate : Machine H → Outcome (Machine H) Unit)
    (max_instr : Nat) (fuel : Nat) (m : Machine H) :
    Option (Outcome (Machine H) Nat) :=
  let m0 := { m with m_stopped := false }
  if max_instr ≠ 0 then
    let max_instr' := (max_instr + m0.counter) % 2 ^ 64
    simulate_bounded cpu_simulate max_instr' fuel 0 m0
  else
    simulate_unbounded cpu_simulate fuel 0 m0

/-! ## The system-call table -/

/-- The member `Machine<W>::install_syscall_handler(int sysn, syscall_t handler)`:
`m_syscall_handlers[sysn] = handler`. -/
def install_syscall_handler (m : Machine H) (sysn : Int) (handler : H) :
    Machine H :=
  { m with m_syscall_handlers :=
      fun k => if k = sysn then some handler else m.m_syscall_handlers k }

/-- The member `Machine<W>::get_syscall_handler(int sysn)`:
`return m_syscall_handlers.at(sysn)`; `at` throws on a missing key. -/
def get_syscall_handler (m : Machine H) (sysn : Int) : Outcome (Machine H) H :=
  match m.m_syscall_handlers sysn with
  | some h => .ok h m
  | none => .raised .outOfRange m

/-- The conversion of a host integer to `address_t`, an unsigned integer of
`W` bytes. -/
def toAddress (W : Nat) (v : Int) : Nat := (v % 2 ^ (8 * W)).toNat

/-- The member `Machine<W>::system_call(int syscall_number)`. `call h m` runs
the handler `h` on the machine `m`: it gives the value bound to
`address_t ret` and the machine the handler leaves, or the failure the
handler throws. -/
def system_call (W : Nat) (call : H → Machine H → Outcome (Machine H) Nat)
    (syscall_number : Int) (m : Machine H) : Outcome (Machine H) Unit :=
  match m.m_syscall_handlers syscall_number with
  | some handler =>
    match call handler m with
    | .raised e m' => .raised e m'
    | .ok ret m' =>
      -- EBREAK should not modify registers
      if syscall_number ≠ SYSCALL_EBREAK then
        .ok () (m'.setReg REG_RETVAL ret)
      else
        .ok () m'
  | none =>
    if m.throw_on_unhandled_syscall = false then
      -- EBREAK should not modify registers
      if syscall_number ≠ SYSCALL_EBREAK then
        .ok () (m.setReg REG_RETVAL (toAddress W (-ENOSYS)))
      else
        .ok () m
    else
      .raised (.machineException .UNHANDLED_SYSCALL "Unhandled system call"
        syscall_number) m

/-- The member `Machine<W>::sysarg<T>(int idx)` at `T = address_t`:
`cpu.reg(RISCV::REG_ARG0 + idx)`. -/
def sysarg (m : Machine H) (idx : Nat) : Nat := m.reg (REG_ARG0 + idx)

/-! ## Call set-up -/

/-- The loop of `setup_call`:
`for (arg = 0; arg < args.size(); arg++) cpu.reg(REG_ARG0 + arg) = args[arg];`
entered at index `arg` with the arguments from that index on. -/
def setup_call_args : List Nat → Nat → Machine H → Machine H
  | [], _, m => m
  | a :: rest, arg, m => setup_call_args rest (arg + 1) (m.setReg (REG_ARG0 + arg) a)

/-- The member `Machine<W>::setup_call(call_addr, retn_addr, args)`. The
`assert` is taken as compiled in: when it fails the process aborts.
`cpu_jump` is `cpu.jump`. -/
def setup_call (cpu_jump : Nat → Machine H → Outcome (Machine H) Unit)
    (call_addr retn_addr : Nat) (args : List Nat) (m : Machine H) :
    Outcome (Machine H) Unit :=
  if ¬ (args.length ≤ 8) then .raised .assertionFailed m
  else
    let m1 := m.setReg REG_RA retn_addr
    let m2 := setup_call_args args 0 m1
    cpu_jump call_addr m2

/-- The conversion of an `address_t` value to the host type `long` (64-bit,
two's complement). -/
def toLong (v : Nat) : Int :=
  if v % 2 ^ 64 < 2 ^ 63 then (v % 2 ^ 64 : Nat) else (v % 2 ^ 64 : Nat) - 2 ^ 64

/-- The member `Machine<W>::vmcall(function_name, args, exec, max_instructions)`.
`resolve_address` is `memory.resolve_address`; `fuel` is the fuel of
`simulate`. -/
def vmcall (cpu_simulate : Machine H → Outcome (Machine H) Unit)
    (cpu_jump : Nat → Machine H → Outcome (Machine H) Unit)
    (resolve_address : String → Nat)
    (function_name : String) (args : List Nat) (exec : Bool)
    (max_instructions : Nat) (fuel : Nat) (m : Machine H) :
    Option (Outcome (Machine H) Int) :=
  let call_addr := resolve_address function_name
  let retn_addr := m.m_exit_address
  match setup_call cpu_jump call_addr retn_addr args m with
  | .raised e m' => some (.raised e m')
  | .ok _ m1 =>
    if exec then
      match simulate cpu_simulate max_instructions fuel m1 with
      | none => none
      | some (.raised e m') => some (.raised e m')
      | some (.ok _ m2) => some (.ok (toLong (m2.sysarg REG_RETVAL)) m2)
    else
      some (.ok 0 m1)

/-- Modelled from the spec: `cpu.jump(dst)` (its definition is not among the
sources); the spec describes a jump as setting `pc` to the target. -/
def CPU_jump (dst : Nat) (m : Machine H) : Outcome (Machine H) Unit :=
  .ok () { m with pc := dst }

/-! ## Stack alignment -/

/-- The complement `~x` of an `address_t` value `x`. -/
def bitNot (W : Nat) (x : Nat) : Nat := 2 ^ (8 * W) - 1 - x % 2 ^ (8 * W)

/-- The member `Machine<W>::realign_stack(uint8_t align)`. -/
def realign_stack (W : Nat) (align : Nat) (m : Machine H) :
    Outcome (Machine H) Unit :=
  let finish (align_mask : Nat) : Outcome (Machine H) Unit :=
    .ok () (m.setReg REG_SP (m.reg REG_SP &&& bitNot W align_mask))
  if align = 4 then finish 0x3
  else if align = 8 then finish 0x7
  else if align = 16 then finish 0xF
  else .raised (.machineException .INVALID_ALIGNMENT "Invalid alignment" align) m

/-! ## Reset and guest copies -/

/-- The member `Machine<W>::reset()`: `cpu.reset(); memory.reset();`.
`cpu_reset` is `cpu.reset`, `memory_reset` is `memory.reset`. -/
def reset (cpu_reset memory_reset : Machine H → Outcome (Machine H) Unit)
    (m : Machine H) : Outcome (Machine H) Unit :=
  match cpu_reset m with
  | .raised e m' => .raised e m'
  | .ok _ m1 => memory_reset m1

/-- Modelled from the spec: `cpu.reset()` (its definition is not among the
sources). The spec gives the state after `reset` as: all registers zero,
`pc := start_address`, counter 0, stop cleared. -/
def CPU_reset (m : Machine H) : Outcome (Machine H) Unit :=
  .ok () { m with regs := fun _ => 0, pc := m.m_start_address, counter := 0,
                  m_stopped := false }

/-- Modelled from the spec: `memory.reset()` (its definition is not among the
sources). The spec gives `reset` no effect of the address space on
registers, pc, counter or stop flag, and the pages are not part of this
state: on this state the call returns and changes nothing. -/
def Memory_reset (m : Machine H) : Outcome (Machine H) Unit :=
  .ok () m

/-- The member `Machine<W>::copy_to_guest(dst, buf, len)`:
`memory.memcpy(dst, buf, len); return dst + len;`. `memory_memcpy` is
`memory.memcpy`; `buf` is the host buffer. The sum of the `address_t` `dst`
and the 64-bit `size_t` `len` is converted to `address_t` on return. -/
def copy_to_guest (W : Nat)
    (memory_memcpy : Nat → List Nat → Nat → Machine H → Outcome (Machine H) Unit)
    (dst : Nat) (buf : List Nat) (len : Nat) (m : Machine H) :
    Outcome (Machine H) Nat :=
  match memory_memcpy dst buf len m with
  | .raised e m' => .raised e m'
  | .ok _ m' => .ok (((dst + len) % 2 ^ 64) % 2 ^ (8 * W)) m'

/-- The relation `RunsTo step k a b`: `k` successful calls of `cpu.simulate()`,
each started with the stop flag clear, lead from machine `a` to machine
`b`. -/
inductive RunsTo (step : Machine H → Outcome (Machine H) Unit) :
    Nat → Machine H → Machine H → Prop where
  | zero (a : Machine H) : RunsTo step 0 a a
  | succ {k : Nat} {a b c : Machine H} (hclear : a.m_stopped = false)
      (hstep : step a = .ok () b) (hrest : RunsTo step k b c) :
      RunsTo step (k + 1) a c

/-- A sequence of calls of `install_syscall_handler`, in list order. -/
def install_all (m : Machine H) (l : List (Int × H)) : Machine H :=
  l.foldl (fun acc p => acc.install_syscall_handler p.1 p.2) m

end Machine

/-! ## Instruction decoding (`rv32i.cpp`, `rv64i.cpp`) -/

/-- An instruction descriptor `CPU<W>::instruction_t`: a handler and a
printer, both function pointers (values of the abstract types `Hd` and
`Pr`). -/
structure instruction_t (Hd Pr : Type) where
  handler : Hd
  printer : Pr

/-- Modelled from the spec: the decoding tree of `instr_decoding.inc` (the
file is not among the sources). The spec describes decoding as a switch on
the primary opcode followed by `funct3` / `funct7` refinement over static
tables: every path is a sequence of tests of the instruction word and ends
in `DECODER(x)` for a descriptor `x`. -/
inductive DecodingTree (Hd Pr : Type) where
  | DECODER (x : instruction_t Hd Pr)
  | test (cond : Nat → Bool) (yes no : DecodingTree Hd Pr)

/-- The expansion of `instr_decoding.inc` under a definition of the macro
`DECODER`. -/
def DecodingTree.expand {Hd Pr α : Type} (DECODER : instruction_t Hd Pr → α) :
    DecodingTree Hd Pr → Nat → α
  | .DECODER x, _ => DECODER x
  | .test cond yes no, instruction =>
    if cond instruction then yes.expand DECODER instruction
    else no.expand DECODER instruction

namespace CPU

/-- The member `CPU<W>::decode(instruction)`: the decoding tree under
`#define DECODER(x) return(x)`. -/
def decode {Hd Pr : Type} (tree : DecodingTree Hd Pr) (instruction : Nat) :
    instruction_t Hd Pr :=
  tree.expand (fun x => x) instruction

/-- The member `CPU<W>::execute(instruction)`: the decoding tree under
`#define DECODER(x) { x.handler(*this, instruction); return; }`.
`invoke h cpu i` is the call `h(cpu, i)` of the handler `h`. -/
def execute {Hd Pr σ : Type} (invoke : Hd → σ → Nat → Outcome σ Unit)
    (tree : DecodingTree Hd Pr) (cpu : σ) (instruction : Nat) :
    Outcome σ Unit :=
  tree.expand (fun x => invoke x.handler cpu instruction) instruction

end CPU

/-! ## The decoder cache (`decoder_cache.hpp`, `decoder_cache.cpp`) -/

/-- Modelled from the spec: `PageSize`, the value of `Page::size()` (declared
in a header that is not among the sources); the spec gives `PAGE_SIZE` as
4096. -/
def PageSize : Nat := 4096

/-- Modelled from the spec: `Page::SHIFT`; pages are indexed by `addr >> 12`. -/
def Page_SHIFT : Nat := 12

/-- Modelled from the spec: `rv32i_instruction::length()` (declared in a
header that is not among the sources); an instruction word is 2 bytes when
the low two bits of its first halfword are not `0b11`, else 4 bytes. -/
def instruction_length (whole : Nat) : Nat :=
  if whole % 4 ≠ 3 then 2 else 4

/-- One `DecoderCache`: the array `cache` of `index_type` entries, indexed
from 0. -/
structure DecoderCache where
  cache : Nat → Nat

namespace DecoderCache

/-- The constant `DecoderCache::DIVISOR`: `(compressed_enabled) ? 2 : 4`. -/
def DIVISOR (compressed_enabled : Bool) : Nat :=
  if compressed_enabled then 2 else 4

/-- The number of entries of the member `cache`: `PageSize / DIVISOR`. -/
def entries (compressed_enabled : Bool) : Nat :=
  PageSize / DIVISOR compressed_enabled

/-- The initial value `cache {}`: every entry zero. -/
def zero : DecoderCache := { cache := fun _ => 0 }

/-- The member `DecoderCache::get(idx)`, as a read. -/
def get (c : DecoderCache) (idx : Nat) : Nat := c.cache idx

/-- The member `DecoderCache::set(idx, h)`: `get(idx) = translate<W>(h)`. -/
def set {Hd : Type} (translate : Hd → Nat) (c : DecoderCache) (idx : Nat)
    (h : Hd) : DecoderCache :=
  { cache := fun i => if i = idx then translate h else c.cache i }

/-- The position of `decoder_array[cacheno].cache[idx]` in the array
`decoder_array`, counted in entries from `decoder_array[0].cache[0]`: the
array elements lie one after the other and each holds `PageSize / DIVISOR`
one-byte entries. -/
def flat_index (compressed_enabled : Bool) (cacheno idx : Nat) : Nat :=
  cacheno * entries compressed_enabled + idx

end DecoderCache

namespace Memory

/-- The member `Memory<W>::page_number(address)`: `address >> Page::SHIFT`. -/
def page_number (address : Nat) : Nat := address >>> Page_SHIFT

/-- The constant `PMASK` of `generate_decoder_cache`: `Page::size() - 1`. -/
def PMASK : Nat := PageSize - 1

/-- The local `pbase` of `generate_decoder_cache`: `addr & ~PMASK`, in
`address_t`. -/
def pbase (W addr : Nat) : Nat := addr &&& Machine.bitNot W PMASK

/-- The local `prelen` of `generate_decoder_cache`: `addr - pbase`. -/
def prelen (W addr : Nat) : Nat := addr - pbase W addr

/-- The local `midlen` of `generate_decoder_cache`: `len + prelen`, in the
64-bit `size_t`. -/
def midlen (W addr len : Nat) : Nat := (len + prelen W addr) % 2 ^ 64

/-- The local `plen` of `generate_decoder_cache`:
`(PMASK & midlen) ? ((midlen + Page::size()) & ~PMASK) : midlen`, where the
sum is taken in the 64-bit `size_t` and `~PMASK` is the complement in
`address_t`. -/
def plen (W addr len : Nat) : Nat :=
  if PMASK &&& midlen W addr len ≠ 0 then
    ((midlen W addr len + PageSize) % 2 ^ 64) &&& Machine.bitNot W PMASK
  else midlen W addr len

/-- The local `n_pages` of `generate_decoder_cache`: `plen / Page::size()`. -/
def n_pages (W addr len : Nat) : Nat := plen W addr len / PageSize

/-- The pointer `m_exec_decoder` set by `generate_decoder_cache`:
`decoder_array[0].get_base() - pbase / DecoderCache::DIVISOR`, counted in
entries from `decoder_array[0].cache[0]`. -/
def m_exec_decoder (W : Nat) (compressed_enabled : Bool) (addr : Nat) : Int :=
  (0 : Int) - ((pbase W addr / DecoderCache.DIVISOR compressed_enabled : Nat) : Int)

/-- The 32-bit load `*(uint32_t*) &exec_offset[dst]` with
`exec_offset = m_exec_pagedata.get() - pbase`, on a little-endian host;
`m_exec_pagedata i` is the byte at index `i` of the execute segment's
page data. -/
def exec_word (m_exec_pagedata : Nat → Nat) (pbase dst : Nat) : Nat :=
  m_exec_pagedata (dst - pbase) + m_exec_pagedata (dst - pbase + 1) * 2 ^ 8
    + m_exec_pagedata (dst - pbase + 2) * 2 ^ 16
    + m_exec_pagedata (dst - pbase + 3) * 2 ^ 24

/-- The loop of `generate_decoder_cache` under `RISCV_INSTR_CACHE_PREGEN`:
`for (address_t dst = pbase; dst < pbase + plen;) { ... }`, entered at `dst`
with the array `decoder_array`. `translate` is `DecoderCache::translate<W>`,
`tree` the decoding tree of `cpu.decode`; `fuel` bounds the number of
evaluations of the loop condition. -/
def pregen_loop {Hd Pr : Type} (W : Nat) (compressed_enabled : Bool)
    (translate : Hd → Nat) (tree : DecodingTree Hd Pr)
    (m_exec_pagedata : Nat → Nat) (addr len : Nat) :
    Nat → Nat → (Nat → DecoderCache) → Option (Nat → DecoderCache)
  | 0, _, _ => none
  | fuel + 1, dst, decoder_array =>
    if dst < (pbase W addr + plen W addr len) % 2 ^ 64 then
      let cacheno := page_number ((dst + 2 ^ (8 * W) - pbase W addr) % 2 ^ (8 * W))
      let offset := dst &&& (PageSize - 1)
      let cache := decoder_array cacheno
      if dst ≥ addr ∧ dst < (addr + len) % 2 ^ 64 then
        let instruction := exec_word m_exec_pagedata (pbase W addr) dst
        let cache' := cache.set translate
          (offset / DecoderCache.DIVISOR compressed_enabled)
          (CPU.decode tree instruction).handler
        pregen_loop W compressed_enabled translate tree m_exec_pagedata addr len
          fuel ((dst + instruction_length instruction) % 2 ^ (8 * W))
          (fun c => if c = cacheno then cache' else decoder_array c)
      else
        let cache' := cache.set translate
          (offset / DecoderCache.DIVISOR compressed_enabled)
          (CPU.decode tree 0).handler
        pregen_loop W compressed_enabled translate tree m_exec_pagedata addr len
          fuel ((dst + 4) % 2 ^ (8 * W))
          (fun c => if c = cacheno then cache' else decoder_array c)
    else some decoder_array

/-- The member `Memory<W>::generate_decoder_cache(addr, len)` under
`RISCV_INSTR_CACHE_PREGEN`: the array `new DecoderCache [n_pages]` (every
entry zero) filled by the loop from `dst = pbase`. The result is the array
`m_decoder_cache`; `none` when `fuel` does not suffice. -/
def generate_decoder_cache {Hd Pr : Type} (W : Nat) (compressed_enabled : Bool)
    (translate : Hd → Nat) (tree : DecodingTree Hd Pr)
    (m_exec_pagedata : Nat → Nat) (addr len : Nat) (fuel : Nat) :
    Option (Nat → DecoderCache) :=
  pregen_loop W compressed_enabled translate tree m_exec_pagedata addr len
    fuel (pbase W addr) (fun _ => DecoderCache.zero)

/-- The entry the cache holds for the instruction address `pc` after
`generate_decoder_cache`: entry `(pc & (PageSize - 1)) / DIVISOR` of cache
page `page_number(pc - pbase)`; 0 when `fuel` does not suffice. -/
def cached_index {Hd Pr : Type} (W : Nat) (compressed_enabled : Bool)
    (translate : Hd → Nat) (tree : DecodingTree Hd Pr)
    (m_exec_pagedata : Nat → Nat) (addr len : Nat) (fuel : Nat) (pc : Nat) :
    Nat :=
  match generate_decoder_cache W compressed_enabled translate tree
      m_exec_pagedata addr len fuel with
  | none => 0
  | some decoder_array =>
    (decoder_array (page_number (pc - pbase W addr))).get
      ((pc &&& (PageSize - 1)) / DecoderCache.DIVISOR compressed_enabled)

end Memory

namespace Machine

variable {H : Type}

/-! ## Concrete machines and collaborators

Inputs at which the statements below are instantiated. Handlers are named by
natural numbers. -/

/-- A machine with all registers, the pc and the counter at zero, an empty
handler table and `throw_on_unhandled_syscall` off. -/
def machine0 : Machine Nat :=
  { regs := fun _ => 0, pc := 0, counter := 0, m_stopped := false,
    m_syscall_handlers := fun _ => none, throw_on_unhandled_syscall := false,
    m_exit_address := 0, m_start_address := 0x1000 }

/-- A CPU step of a program that loops forever: it retires one instruction
and touches nothing else. -/
def tick (s : Machine Nat) : Outcome (Machine Nat) Unit :=
  .ok () { s with counter := (s.counter + 1) % 2 ^ 64 }

/-- The machine `machine0` after `i` steps of `tickStop3`. -/
def stop3Trace (i : Nat) : Machine Nat :=
  { machine0 with counter := i, m_stopped := decide (3 ≤ i) }

/-- A CPU step that retires one instruction and calls `stop()` in the third
step. -/
def tickStop3 (s : Machine Nat) : Outcome (Machine Nat) Unit :=
  .ok () { s with counter := (s.counter + 1) % 2 ^ 64,
                  m_stopped := decide (3 ≤ s.counter + 1) }

/-- A handler semantics: handler `h` writes `7` to register `a1`, calls
`stop()` and returns `h + 100`. -/
def sampleCall (h : Nat) (s : Machine Nat) : Outcome (Machine Nat) Nat :=
  .ok (h + 100) ((s.setReg 11 7).stop true)

/-- A symbol table: every name resolves to `0x1000`. -/
def sampleResolve (_ : String) : Nat := 0x1000

/-- A `memory.memcpy` that succeeds. -/
def sampleMemcpy (_ : Nat) (_ : List Nat) (_ : Nat) (s : Machine Nat) :
    Outcome (Machine Nat) Unit :=
  .ok () s

/-- A CPU step of a guest function that returns 42: it writes 42 to `a0`,
retires one instruction and calls `stop()`. -/
def stepReturn42 (s : Machine Nat) : Outcome (Machine Nat) Unit :=
  .ok () (({ s with counter := (s.counter + 1) % 2 ^ 64 }.setReg 10 42).stop true)

/-- A decoding tree with two descriptors, named by numbers: the word 0
decodes to the illegal instruction (handler 1), every other word to
handler 2. -/
def sampleTree : DecodingTree Nat Nat :=
  .test (fun i => i == 0) (.DECODER ⟨1, 1⟩) (.DECODER ⟨2, 2⟩)

/-- A `translate` that gives handler `h` the index `h`. -/
def sampleTranslate (h : Nat) : Nat := h

/-- Execute page data: the four-byte instruction `addi x0, x0, 0`
(`0x00000013`) at every multiple of four, relative to the page base. -/
def nopPageData (i : Nat) : Nat := if i % 4 = 0 then 0x13 else 0

/-- Execute page data: `addi x0, x0, 0` at every offset that is 2 modulo 4. -/
def nopPageData2 (i : Nat) : Nat := if i % 4 = 2 then 0x13 else 0

/-- A handler call: handler `h` adds `h` to the pc (the CPU state is a
machine). -/
def sampleInvoke (h : Nat) (cpu : Machine Nat) (_ : Nat) :
    Outcome (Machine Nat) Unit :=
  .ok () { cpu with pc := cpu.pc + h }

/-! ## Lemmas on the run loop -/

/-- A run of `k` steps followed by one more step, started with the stop flag
clear, is a run of `k + 1` steps. -/
theorem RunsTo.snoc {step : Machine H → Outcome (Machine H) Unit} {k : Nat}
    {a b c : Machine H} (hrun : RunsTo step k a b)
    (hclear : b.m_stopped = false) (hstep : step b = .ok () c) :
    RunsTo step (k + 1) a c := by
  induction hrun with
  | zero a => exact RunsTo.succ hclear hstep (RunsTo.zero c)
  | succ hc hs _ ih => exact RunsTo.succ hc hs (ih hclear hstep)

/-- A run of the bounded loop from a machine `a` reached after `j` steps from
`m0`, when every step taken within the first `max_instr` steps from `m0`
succeeds, retires one instruction and leaves the stop flag clear: started
`n` instructions below the limit with `j + n = max_instr`, the loop ends
after `n` more steps, in the machine those steps lead to, with the counter
on the limit. -/
theorem simulate_bounded_budget
    (cpu_simulate : Machine H → Outcome (Machine H) Unit)
    (limit max_instr : Nat) (m0 : Machine H) (hlimit : limit < 2 ^ 64)
    (hstep : ∀ (j : Nat) (a : Machine H), j < max_instr →
      RunsTo cpu_simulate j m0 a → a.m_stopped = false →
      ∃ b, cpu_simulate a = .ok () b ∧
        b.counter = (a.counter + 1) % 2 ^ 64 ∧ b.m_stopped = false) :
    ∀ (n fuel executed j : Nat) (a : Machine H), 0 < n → n ≤ fuel →
      j + n = max_instr → RunsTo cpu_simulate j m0 a →
      a.m_stopped = false → a.counter + n = limit →
      ∃ m', simulate_bounded cpu_simulate limit fuel executed a
          = some (.ok (executed + n) m') ∧
        RunsTo cpu_simulate (j + n) m0 m' ∧
        m'.counter = limit ∧ m'.m_stopped = false := by
  intro n
  induction n with
  | zero => intro _ _ _ _ h; exact absurd h (Nat.lt_irrefl 0)
  | succ n ih =>
    intro fuel executed j a _ hfuel hj hrun hstop hcount
    obtain ⟨b, hb, hc', hst'⟩ := hstep j a (by omega) hrun hstop
    have hcs : b.counter = a.counter + 1 := by
      rw [hc']; exact Nat.mod_eq_of_lt (by omega)
    have hrun' : RunsTo cpu_simulate (j + 1) m0 b := RunsTo.snoc hrun hstop hb
    cases fuel with
    | zero => omega
    | succ fuel =>
      by_cases hn : n = 0
      · subst hn
        refine ⟨b, ?_, hrun', by omega, hst'⟩
        simp only [simulate_bounded, stopped, hstop, hb]
        have : b.counter ≥ limit := by omega
        simp [this]
      · obtain ⟨m', hm', hrm', hcm', hsm'⟩ :=
          ih fuel (executed + 1) (j + 1) b (by omega) (by omega) (by omega)
            hrun' hst' (by omega)
        have hjn : j + 1 + n = j + (n + 1) := by omega
        rw [hjn] at hrm'
        refine ⟨m', ?_, hrm', hcm', hsm'⟩
        simp only [simulate_bounded, stopped, hstop, hb]
        have : ¬ b.counter ≥ limit := by omega
        simp only [this, if_false, Bool.false_eq_true]
        rw [hm']
        congr 2
        omega

/-- A run of the bounded loop along a trajectory `s` whose state `k` is the
first with the stop flag set and whose states before `k` are below the limit:
started at state `i`, it ends in state `k` after `k - i` steps. -/
theorem simulate_bounded_stop
    (cpu_simulate : Machine H → Outcome (Machine H) Unit) (limit k : Nat)
    (s : Nat → Machine H)
    (hstep : ∀ i, i < k → cpu_simulate (s i) = .ok () (s (i + 1)))
    (hrun : ∀ i, i < k → (s i).m_stopped = false)
    (hstop : (s k).m_stopped = true)
    (hbudget : ∀ i, 0 < i → i < k → (s i).counter < limit) :
    ∀ (d i fuel executed : Nat), i + d = k → d < fuel →
      simulate_bounded cpu_simulate limit fuel executed (s i)
        = some (.ok (executed + d) (s k)) := by
  intro d
  induction d with
  | zero =>
    intro i fuel executed hi hfuel
    have hik : i = k := by omega
    subst hik
    cases fuel with
    | zero => omega
    | succ fuel => simp [simulate_bounded, stopped, hstop]
  | succ d ih =>
    intro i fuel executed hi hfuel
    cases fuel with
    | zero => omega
    | succ fuel =>
      have hlt : i < k := by omega
      simp only [simulate_bounded, stopped, hrun i hlt, hstep i hlt]
      by_cases hc : (s (i + 1)).counter ≥ limit
      · have hk : i + 1 = k := by
          by_contra hne
          have := hbudget (i + 1) (by omega) (by omega)
          omega
        have hd : d = 0 := by omega
        subst hd
        subst hk
        rw [if_pos hc]
        simp
      · simp only [hc, if_false, Bool.false_eq_true]
        rw [ih (i + 1) fuel (executed + 1) (by omega) (by omega)]
        congr 2
        omega

/-- A run of the unbounded loop along a trajectory `s` whose state `k` is the
first with the stop flag set: started at state `i`, it ends in state `k`
after `k - i` steps. -/
theorem simulate_unbounded_stop
    (cpu_simulate : Machine H → Outcome (Machine H) Unit) (k : Nat)
    (s : Nat → Machine H)
    (hstep : ∀ i, i < k → cpu_simulate (s i) = .ok () (s (i + 1)))
    (hrun : ∀ i, i < k → (s i).m_stopped = false)
    (hstop : (s k).m_stopped = true) :
    ∀ (d i fuel executed : Nat), i + d = k → d < fuel →
      simulate_unbounded cpu_simulate fuel executed (s i)
        = some (.ok (executed + d) (s k)) := by
  intro d
  induction d with
  | zero =>
    intro i fuel executed hi hfuel
    have hik : i = k := by omega
    subst hik
    cases fuel with
    | zero => omega
    | succ fuel => simp [simulate_unbounded, stopped, hstop]
  | succ d ih =>
    intro i fuel executed hi hfuel
    cases fuel with
    | zero => omega
    | succ fuel =>
      have hlt : i < k := by omega
      simp only [simulate_unbounded, stopped, hrun i hlt, hstep i hlt,
        if_false, Bool.false_eq_true]
      rw [ih (i + 1) fuel (executed + 1) (by omega) (by omega)]
      congr 2
      omega

/-- The unbounded loop returns normally only in a state with the stop flag
set. -/
theorem simulate_unbounded_exit
    (cpu_simulate : Machine H → Outcome (Machine H) Unit) :
    ∀ (fuel executed : Nat) (m : Machine H) (j : Nat) (m' : Machine H),
      simulate_unbounded cpu_simulate fuel executed m = some (.ok j m') →
      m'.m_stopped = true := by
  intro fuel
  induction fuel with
  | zero => intro executed m j m' h; simp [simulate_unbounded] at h
  | succ fuel ih =>
    intro executed m j m' h
    simp only [simulate_unbounded, stopped] at h
    by_cases hs : m.m_stopped = true
    · simp only [hs, if_true] at h
      cases h
      exact hs
    · simp only [hs, if_false] at h
      cases hc : cpu_simulate m with
      | raised e m1 => rw [hc] at h; cases h
      | ok u m1 => rw [hc] at h; exact ih _ _ _ _ h

/-! ## The run loop: budget and stop -/

/-- Claim C1. For every machine and every `max_instr > 0` with
`counter + max_instr` below `2 ^ 64`, if every CPU step of the run (every
step taken from a machine reached within fewer than `max_instr` steps from
the machine on entry with the stop flag cleared) succeeds, increases the
retired counter by one and leaves the stop flag clear, then
`simulate(max_instr)` returns normally (with any fuel of at least
`max_instr` loop iterations) after exactly `max_instr` steps, in the machine
`m'` that those `max_instr` steps of `cpu.simulate()` lead to, with the
counter at `start_counter + max_instr`. -/
theorem simulate_budget_exact
    (cpu_simulate : Machine H → Outcome (Machine H) Unit) (m : Machine H)
    (max_instr fuel : Nat) (hpos : 0 < max_instr)
    (hrange : m.counter + max_instr < 2 ^ 64)
    (hstep : ∀ (j : Nat) (a : Machine H), j < max_instr →
      RunsTo cpu_simulate j { m with m_stopped := false } a →
      a.m_stopped = false →
      ∃ b, cpu_simulate a = .ok () b ∧
        b.counter = (a.counter + 1) % 2 ^ 64 ∧ b.m_stopped = false)
    (hfuel : max_instr ≤ fuel) :
    ∃ m', simulate cpu_simulate max_instr fuel m = some (.ok max_instr m') ∧
      RunsTo cpu_simulate max_instr { m with m_stopped := false } m' ∧
      m'.counter = m.counter + max_instr ∧ m'.m_stopped = false := by
  have hne : max_instr ≠ 0 := by omega
  have hmod : (max_instr + m.counter) % 2 ^ 64 = m.counter + max_instr := by
    rw [Nat.add_comm]; exact Nat.mod_eq_of_lt hrange
  obtain ⟨m', hm', hr, hc, hs⟩ :=
    simulate_bounded_budget cpu_simulate (m.counter + max_instr) max_instr
      { m with m_stopped := false } hrange hstep
      max_instr fuel 0 0 { m with m_stopped := false } hpos hfuel
      (Nat.zero_add _) (RunsTo.zero _) rfl rfl
  rw [Nat.zero_add] at hr
  refine ⟨m', ?_, hr, hc, hs⟩
  simp only [simulate, hne, ne_eq, not_false_eq_true, if_true, hmod]
  rw [hm', Nat.zero_add]

/-- Witness of C1: `simulate(10)` on the endless loop `tick`, from
`machine0`. -/
theorem simulate_budget_exact_witness :
    ∃ m', simulate tick 10 10 machine0 = some (.ok 10 m') ∧
      RunsTo tick 10 { machine0 with m_stopped := false } m' ∧
      m'.counter = machine0.counter + 10 ∧ m'.m_stopped = false :=
  simulate_budget_exact tick machine0 10 10 (by decide) (by decide)
    (fun _ _ _ _ h => ⟨_, rfl, rfl, h⟩) (Nat.le_refl 10)

/-- Claim C2. If along the run of `simulate(max_instr)` the `k`-th CPU step
is the first that leaves the stop flag set (`s i` is the machine after `i`
steps, `s 0` the machine on entry with the flag cleared), and for
`max_instr > 0` the counter stays below the limit before step `k`, then
`simulate` returns normally after exactly `k` steps in state `s k`; and with
`max_instr = 0` every normal return of `simulate` is in a state with the
stop flag set. -/
theorem simulate_stops_at_boundary
    (cpu_simulate : Machine H → Outcome (Machine H) Unit) (m : Machine H)
    (max_instr k : Nat) (s : Nat → Machine H)
    (h0 : s 0 = { m with m_stopped := false })
    (hstep : ∀ i, i < k → cpu_simulate (s i) = .ok () (s (i + 1)))
    (hrun : ∀ i, i < k → (s i).m_stopped = false)
    (hstop : (s k).m_stopped = true)
    (hbudget : max_instr ≠ 0 → ∀ i, 0 < i → i < k →
      (s i).counter < (max_instr + m.counter) % 2 ^ 64) :
    (∀ fuel, k < fuel →
      simulate cpu_simulate max_instr fuel m = some (.ok k (s k))) ∧
    (∀ (step : Machine H → Outcome (Machine H) Unit) (m₀ : Machine H)
      (fuel j : Nat) (m' : Machine H),
      simulate step 0 fuel m₀ = some (.ok j m') → m'.m_stopped = true) := by
  constructor
  · intro fuel hfuel
    by_cases hz : max_instr = 0
    · have h := simulate_unbounded_stop cpu_simulate k s hstep hrun hstop
        k 0 fuel 0 (by omega) hfuel
      simp only [simulate, hz, ne_eq, not_true_eq_false, if_false]
      rw [← h0, h, Nat.zero_add]
    · have h := simulate_bounded_stop cpu_simulate
        ((max_instr + m.counter) % 2 ^ 64) k s hstep hrun hstop (hbudget hz)
        k 0 fuel 0 (by omega) hfuel
      simp only [simulate, hz, ne_eq, not_false_eq_true, if_true]
      rw [← h0, h, Nat.zero_add]
  · intro step m₀ fuel j m' h
    simp only [simulate, ne_eq, not_true_eq_false, if_false] at h
    exact simulate_unbounded_exit step fuel 0 _ j m' h

/-- Witness of C2: `simulate(10)` with a step that stops in the third
instruction, from `machine0`. -/
theorem simulate_stops_at_boundary_witness :
    (∀ fuel, 3 < fuel →
      simulate tickStop3 10 fuel machine0 = some (.ok 3 (stop3Trace 3))) ∧
    (∀ (step : Machine Nat → Outcome (Machine Nat) Unit) (m₀ : Machine Nat)
      (fuel j : Nat) (m' : Machine Nat),
      simulate step 0 fuel m₀ = some (.ok j m') → m'.m_stopped = true) :=
  simulate_stops_at_boundary tickStop3 machine0 10 3 stop3Trace rfl
    (by intro i hi; interval_cases i <;> rfl)
    (by intro i hi; interval_cases i <;> rfl)
    rfl
    (by intro _ i h1 h2; interval_cases i <;> decide)

/-! ## System-call dispatch -/

/-- Claim C3. For a syscall number `n ≠ SYSCALL_EBREAK` with handler `h`
in the table, `system_call(n)` runs `h` on the machine; when `h` returns
`ret` leaving machine `m'`, the call returns normally with `a0 = ret`, every
other register, the pc, the stop flag and all other state as in `m'`
(whatever `throw_on_unhandled_syscall` is); when `h` throws, that failure is
the result. -/
theorem system_call_hit (W : Nat)
    (call : H → Machine H → Outcome (Machine H) Nat) (n : Int) (h : H)
    (m : Machine H) (hn : n ≠ SYSCALL_EBREAK)
    (hh : m.m_syscall_handlers n = some h) :
    (∀ ret m', call h m = .ok ret m' →
      ∃ m'', system_call W call n m = .ok () m'' ∧
        m''.reg REG_RETVAL = ret ∧
        (∀ r, r ≠ REG_RETVAL → m''.reg r = m'.reg r) ∧
        m''.pc = m'.pc ∧ m''.m_stopped = m'.m_stopped ∧
        m''.counter = m'.counter ∧
        m''.m_syscall_handlers = m'.m_syscall_handlers ∧
        m''.throw_on_unhandled_syscall = m'.throw_on_unhandled_syscall ∧
        m''.m_exit_address = m'.m_exit_address) ∧
    (∀ e m', call h m = .raised e m' →
      system_call W call n m = .raised e m') := by
  constructor
  · intro ret m' hc
    refine ⟨m'.setReg REG_RETVAL ret, ?_, ?_, ?_, rfl, rfl, rfl, rfl, rfl, rfl⟩
    · simp [system_call, hh, hc, hn]
    · simp [reg, setReg]
    · intro r hr
      simp [reg, setReg, hr]
  · intro e m' hc
    simp [system_call, hh, hc]

/-- Witness of C3: syscall 93 with handler 1 installed on `machine0`, with
`throw_on_unhandled_syscall` off and on. -/
theorem system_call_hit_witness :
    (∃ m'', system_call 4 sampleCall 93
          (machine0.install_syscall_handler 93 1) = .ok () m'' ∧
        m''.reg REG_RETVAL = 101 ∧
        (∀ r, r ≠ REG_RETVAL → m''.reg r
          = (((machine0.install_syscall_handler 93 1).setReg 11 7).stop
              true).reg r) ∧
        m''.pc = 0 ∧ m''.m_stopped = true) ∧
    (∃ m'', system_call 4 sampleCall 93
          ({ machine0 with throw_on_unhandled_syscall := true
            }.install_syscall_handler 93 1) = .ok () m'' ∧
        m''.reg REG_RETVAL = 101 ∧ m''.reg 11 = 7) :=
  ⟨by
    obtain ⟨m'', h1, h2, h3, h4, h5, _⟩ :=
      (system_call_hit 4 sampleCall 93 1
        (machine0.install_syscall_handler 93 1) (by decide) rfl).1 101 _ rfl
    exact ⟨m'', h1, h2, h3, h4, h5⟩,
   by
    obtain ⟨m'', h1, h2, h3, _⟩ :=
      (system_call_hit 4 sampleCall 93 1
        ({ machine0 with throw_on_unhandled_syscall := true
          }.install_syscall_handler 93 1) (by decide) rfl).1 101 _ rfl
    exact ⟨m'', h1, h2, by rw [h3 11 (by decide)]; rfl⟩⟩

/-- Claim C4. `system_call(SYSCALL_EBREAK)` writes no register itself: with
a handler installed the machine after the call is exactly the machine the
handler leaves (its return value is dropped; a failure of the handler is
passed on); with no handler and `throw_on_unhandled_syscall` off the machine
is unchanged, and with the option on the call raises on the unchanged
machine. -/
theorem system_call_ebreak_keeps_registers (W : Nat)
    (call : H → Machine H → Outcome (Machine H) Nat) (m : Machine H) :
    (∀ h, m.m_syscall_handlers SYSCALL_EBREAK = some h →
      (∀ ret m', call h m = .ok ret m' →
        system_call W call SYSCALL_EBREAK m = .ok () m') ∧
      (∀ e m', call h m = .raised e m' →
        system_call W call SYSCALL_EBREAK m = .raised e m')) ∧
    (m.m_syscall_handlers SYSCALL_EBREAK = none →
      m.throw_on_unhandled_syscall = false →
      system_call W call SYSCALL_EBREAK m = .ok () m) ∧
    (m.m_syscall_handlers SYSCALL_EBREAK = none →
      m.throw_on_unhandled_syscall = true →
      ∃ e, system_call W call SYSCALL_EBREAK m = .raised e m) := by
  refine ⟨fun h hh => ⟨?_, ?_⟩, ?_, ?_⟩
  · intro ret m' hc
    simp [system_call, hh, hc]
  · intro e m' hc
    simp [system_call, hh, hc]
  · intro hh ht
    simp [system_call, hh, ht]
  · intro hh ht
    exact ⟨.machineException .UNHANDLED_SYSCALL "Unhandled system call"
      SYSCALL_EBREAK, by simp [system_call, hh, ht]⟩

/-- Witness of C4: EBREAK with handler 1 installed, and EBREAK on the empty
table of `machine0`. -/
theorem system_call_ebreak_keeps_registers_witness :
    system_call 4 sampleCall SYSCALL_EBREAK
        (machine0.install_syscall_handler SYSCALL_EBREAK 1)
      = .ok () (((machine0.install_syscall_handler SYSCALL_EBREAK 1).setReg
          11 7).stop true) ∧
    system_call 4 sampleCall SYSCALL_EBREAK machine0 = .ok () machine0 :=
  ⟨((system_call_ebreak_keeps_registers 4 sampleCall
      (machine0.install_syscall_handler SYSCALL_EBREAK 1)).1 1 rfl).1
      101 _ rfl,
   (system_call_ebreak_keeps_registers 4 sampleCall machine0).2.1 rfl rfl⟩

/-- Claim C5. For a syscall number `n` with no handler in the table:
with `throw_on_unhandled_syscall` off and `n ≠ SYSCALL_EBREAK` the call
returns normally with `a0 = -ENOSYS` modulo `2 ^ (8 * W)` and every other
register unchanged; with the option on it raises `UNHANDLED_SYSCALL` with
detail `n`, the machine unchanged; and it raises if and only if the option
is on. -/
theorem system_call_miss (W : Nat)
    (call : H → Machine H → Outcome (Machine H) Nat) (n : Int)
    (m : Machine H) (hmiss : m.m_syscall_handlers n = none) :
    (m.throw_on_unhandled_syscall = false → n ≠ SYSCALL_EBREAK →
      ∃ m', system_call W call n m = .ok () m' ∧
        ((m'.reg REG_RETVAL : Nat) : Int) = (-ENOSYS) % 2 ^ (8 * W) ∧
        (∀ r, r ≠ REG_RETVAL → m'.reg r = m.reg r) ∧
        m'.pc = m.pc ∧ m'.m_stopped = m.m_stopped) ∧
    (m.throw_on_unhandled_syscall = true →
      system_call W call n m
        = .raised (.machineException .UNHANDLED_SYSCALL
            "Unhandled system call" n) m) ∧
    ((∃ e m', system_call W call n m = .raised e m') ↔
      m.throw_on_unhandled_syscall = true) := by
  refine ⟨?_, ?_, ?_⟩
  · intro ht hn
    refine ⟨m.setReg REG_RETVAL (toAddress W (-ENOSYS)), ?_, ?_, ?_, rfl, rfl⟩
    · simp [system_call, hmiss, ht, hn]
    · simp only [reg, setReg, if_true, toAddress]
      exact Int.toNat_of_nonneg (Int.emod_nonneg _ (by positivity))
    · intro r hr
      simp [reg, setReg, hr]
  · intro ht
    simp [system_call, hmiss, ht]
  · constructor
    · rintro ⟨e, m', he⟩
      by_contra ht
      have ht' : m.throw_on_unhandled_syscall = false := by
        cases hb : m.throw_on_unhandled_syscall
        · rfl
        · exact absurd hb ht
      by_cases hn : n = SYSCALL_EBREAK
      · subst hn
        simp [system_call, hmiss, ht'] at he
      · simp [system_call, hmiss, ht', hn] at he
    · intro ht
      exact ⟨.machineException .UNHANDLED_SYSCALL "Unhandled system call" n, m,
        by simp [system_call, hmiss, ht]⟩

/-- Witness of C5: syscall 5 on the empty table of `machine0`, with the
option off and with the option on. -/
theorem system_call_miss_witness :
    (∃ m', system_call 4 sampleCall 5 machine0 = .ok () m' ∧
        ((m'.reg REG_RETVAL : Nat) : Int) = (-ENOSYS) % 2 ^ (8 * 4) ∧
        (∀ r, r ≠ REG_RETVAL → m'.reg r = machine0.reg r) ∧
        m'.pc = machine0.pc ∧ m'.m_stopped = machine0.m_stopped) ∧
    system_call 4 sampleCall 5 { machine0 with throw_on_unhandled_syscall := true }
      = .raised (.machineException .UNHANDLED_SYSCALL
          "Unhandled system call" 5)
          { machine0 with throw_on_unhandled_syscall := true } :=
  ⟨(system_call_miss 4 sampleCall 5 machine0 rfl).1 rfl (by decide),
   (system_call_miss 4 sampleCall 5
      { machine0 with throw_on_unhandled_syscall := true } rfl).2.1 rfl⟩

/-! ## Stack alignment -/

/-- Masking an `n`-bit value with the complement of `2 ^ k - 1` clears its low
`k` bits. -/
theorem land_not_low_mask (x n k : Nat) (hk : k ≤ n) (hx : x < 2 ^ n) :
    x &&& (2 ^ n - 1 - (2 ^ k - 1) % 2 ^ n) = x - x % 2 ^ k := by
  have hpk : 2 ^ k ≤ 2 ^ n := Nat.pow_le_pow_right (by decide) hk
  have hkpos : 0 < 2 ^ k := Nat.two_pow_pos k
  have h1 : (2 ^ k - 1) % 2 ^ n = 2 ^ k - 1 := Nat.mod_eq_of_lt (by omega)
  rw [h1]
  have h2 : 2 ^ n - 1 - (2 ^ k - 1) = 2 ^ k * (2 ^ (n - k) - 1) := by
    have : 2 ^ n = 2 ^ k * 2 ^ (n - k) := by rw [← Nat.pow_add]; congr 1; omega
    rw [Nat.mul_sub, ← this]; omega
  have h3 : x - x % 2 ^ k = 2 ^ k * (x / 2 ^ k) := by
    have := Nat.div_add_mod x (2 ^ k); omega
  rw [h2, h3]
  apply Nat.eq_of_testBit_eq
  intro i
  rw [Nat.testBit_and, Nat.testBit_mul_pow_two, Nat.testBit_mul_pow_two,
    Nat.testBit_two_pow_sub_one, ← Nat.shiftRight_eq_div_pow, Nat.testBit_shiftRight]
  by_cases hik : k ≤ i
  · by_cases hin : i < n
    · have : i - k < n - k := by omega
      simp [hik, this]
    · have hxi : x.testBit i = false :=
        Nat.testBit_lt_two_pow
          (lt_of_lt_of_le hx (Nat.pow_le_pow_right (by decide) (by omega)))
      simp [hxi]
      intro _
      have : k + (i - k) = i := by omega
      rw [this]; exact hxi
  · simp [hik]

/-- Writing a register twice with the same value is writing it once. -/
theorem setReg_idem (m : Machine H) (idx v : Nat) :
    (m.setReg idx v).setReg idx v = m.setReg idx v := by
  simp only [setReg]
  congr 1
  funext r
  split <;> rfl

/-- The effect of `realign_stack` through the mask `2 ^ k - 1`: the stack
pointer loses its low `k` bits and masking again changes nothing. -/
theorem realign_mask_effect (W k : Nat) (m : Machine H) (hk : k ≤ 8 * W)
    (hsp : m.reg REG_SP < 2 ^ (8 * W)) :
    m.reg REG_SP &&& bitNot W (2 ^ k - 1) = m.reg REG_SP - m.reg REG_SP % 2 ^ k ∧
    (m.reg REG_SP &&& bitNot W (2 ^ k - 1)) &&& bitNot W (2 ^ k - 1)
      = m.reg REG_SP &&& bitNot W (2 ^ k - 1) := by
  constructor
  · exact land_not_low_mask _ _ _ hk hsp
  · rw [Nat.land_assoc, Nat.and_self]

/-- Claim C6. For an 8-bit `align` outside `{4, 8, 16}`, `realign_stack(align)`
raises `INVALID_ALIGNMENT` with detail `align` and leaves the machine (stack
pointer and every other register) unchanged; and `realign_stack(align)`
raises `INVALID_ALIGNMENT` if and only if `align` is outside `{4, 8, 16}`. -/
theorem realign_stack_invalid (W align : Nat) (m : Machine H)
    (h8 : align < 256) :
    (align ≠ 4 ∧ align ≠ 8 ∧ align ≠ 16 →
      realign_stack W align m
        = .raised (.machineException .INVALID_ALIGNMENT "Invalid alignment"
            align) m) ∧
    ((∃ msg data m', realign_stack W align m
        = .raised (.machineException .INVALID_ALIGNMENT msg data) m') ↔
      (align ≠ 4 ∧ align ≠ 8 ∧ align ≠ 16)) := by
  have _ := h8
  have hbad : align ≠ 4 ∧ align ≠ 8 ∧ align ≠ 16 →
      realign_stack W align m
        = .raised (.machineException .INVALID_ALIGNMENT "Invalid alignment"
            align) m := by
    rintro ⟨h4, h8', h16⟩
    simp [realign_stack, h4, h8', h16]
  refine ⟨hbad, ?_, fun h => ⟨_, _, m, hbad h⟩⟩
  rintro ⟨msg, data, m', he⟩
  refine ⟨?_, ?_, ?_⟩ <;> intro ha <;> subst ha <;> simp [realign_stack] at he

/-- Witness of C6: `realign_stack(15)` on `machine0`, `W = 4`. -/
theorem realign_stack_invalid_witness :
    realign_stack 4 15 machine0
      = .raised (.machineException .INVALID_ALIGNMENT "Invalid alignment" 15)
          machine0 :=
  (realign_stack_invalid 4 15 machine0 (by decide)).1
    ⟨by decide, by decide, by decide⟩

/-- Claim C7. For `align` in `{4, 8, 16}` and a stack pointer `sp` of width
`W`, `realign_stack(align)` returns normally with `SP = sp & ~(align - 1)`:
the new `SP` is `sp - sp % align`, a multiple of `align`, the largest one not
above `sp` (`SP ≤ sp`, `sp - SP < align`); no other register and no other
state changes; and a second `realign_stack(align)` changes nothing. -/
theorem realign_stack_aligns (W align : Nat) (m : Machine H) (hW : 1 ≤ W)
    (halign : align = 4 ∨ align = 8 ∨ align = 16)
    (hsp : m.reg REG_SP < 2 ^ (8 * W)) :
    ∃ m', realign_stack W align m = .ok () m' ∧
      m'.reg REG_SP = m.reg REG_SP &&& bitNot W (align - 1) ∧
      m'.reg REG_SP = m.reg REG_SP - m.reg REG_SP % align ∧
      align ∣ m'.reg REG_SP ∧
      m'.reg REG_SP ≤ m.reg REG_SP ∧
      m.reg REG_SP - m'.reg REG_SP < align ∧
      (∀ x, align ∣ x → x ≤ m.reg REG_SP → x ≤ m'.reg REG_SP) ∧
      (∀ r, r ≠ REG_SP → m'.reg r = m.reg r) ∧
      m'.pc = m.pc ∧ m'.counter = m.counter ∧ m'.m_stopped = m.m_stopped ∧
      m'.m_syscall_handlers = m.m_syscall_handlers ∧
      realign_stack W align m' = .ok () m' := by
  have key : ∀ k : Nat, k ≤ 4 → align = 2 ^ k → 2 ≤ k →
      realign_stack W align m
        = .ok () (m.setReg REG_SP (m.reg REG_SP &&& bitNot W (align - 1))) ∧
      realign_stack W align
          (m.setReg REG_SP (m.reg REG_SP &&& bitNot W (align - 1)))
        = .ok () (m.setReg REG_SP (m.reg REG_SP &&& bitNot W (align - 1))) ∧
      m.reg REG_SP &&& bitNot W (align - 1)
        = m.reg REG_SP - m.reg REG_SP % align := by
    intro k hk4 hk hk2
    obtain ⟨e1, e2⟩ := realign_mask_effect W k m (by omega) hsp
    rw [← hk] at e1 e2
    have hreg : (m.setReg REG_SP (m.reg REG_SP &&& bitNot W (align - 1))).reg
        REG_SP = m.reg REG_SP &&& bitNot W (align - 1) := by
      simp [reg, setReg]
    refine ⟨?_, ?_, e1⟩
    · rcases halign with h | h | h <;> subst h <;> simp [realign_stack]
    · rcases halign with h | h | h <;> subst h <;>
        simp only [realign_stack, hreg] <;>
        simp only [Nat.reduceEqDiff, if_true, if_false] <;>
        first
          | (rw [show (3 : Nat) = 4 - 1 from rfl, e2, setReg_idem])
          | (rw [show (7 : Nat) = 8 - 1 from rfl, e2, setReg_idem])
          | (rw [show (15 : Nat) = 16 - 1 from rfl, e2, setReg_idem])
  have hk : ∃ k : Nat, k ≤ 4 ∧ align = 2 ^ k ∧ 2 ≤ k := by
    rcases halign with h | h | h
    · exact ⟨2, by decide, h, by decide⟩
    · exact ⟨3, by decide, h, by decide⟩
    · exact ⟨4, by decide, h, by decide⟩
  obtain ⟨k, hk4, hk, hk2⟩ := hk
  obtain ⟨r1, r2, r3⟩ := key k hk4 hk hk2
  have hreg : (m.setReg REG_SP (m.reg REG_SP &&& bitNot W (align - 1))).reg
      REG_SP = m.reg REG_SP &&& bitNot W (align - 1) := by
    simp [reg, setReg]
  have hpos : 0 < align := by rcases halign with h | h | h <;> omega
  have hmod : m.reg REG_SP % align < align := Nat.mod_lt _ hpos
  have hmle : m.reg REG_SP % align ≤ m.reg REG_SP := Nat.mod_le _ _
  have hdvd : align ∣ m.reg REG_SP - m.reg REG_SP % align :=
    Nat.dvd_sub_mod _
  refine ⟨_, r1, hreg, ?_, ?_, ?_, ?_, ?_, ?_, rfl, rfl, rfl, rfl, r2⟩
  · rw [hreg, r3]
  · rw [hreg, r3]; exact hdvd
  · rw [hreg, r3]; omega
  · rw [hreg, r3]; omega
  · intro x hx hle
    rw [hreg, r3]
    obtain ⟨q, rfl⟩ := hx
    have hq : q ≤ m.reg REG_SP / align :=
      (Nat.le_div_iff_mul_le hpos).2 (by rw [Nat.mul_comm]; exact hle)
    have hd := Nat.div_add_mod (m.reg REG_SP) align
    have : align * q ≤ align * (m.reg REG_SP / align) :=
      Nat.mul_le_mul_left _ hq
    omega
  · intro r hr
    simp [reg, setReg, hr]

/-- Witness of C7: `realign_stack(16)` on a 32-bit machine with
`sp = 0xFFFFFFFF`. -/
theorem realign_stack_aligns_witness :
    ∃ m', realign_stack 4 16 (machine0.setReg REG_SP 0xFFFFFFFF) = .ok () m' ∧
      m'.reg REG_SP
        = (machine0.setReg REG_SP 0xFFFFFFFF).reg REG_SP &&& bitNot 4 (16 - 1) ∧
      m'.reg REG_SP = (machine0.setReg REG_SP 0xFFFFFFFF).reg REG_SP
        - (machine0.setReg REG_SP 0xFFFFFFFF).reg REG_SP % 16 ∧
      16 ∣ m'.reg REG_SP ∧
      m'.reg REG_SP ≤ (machine0.setReg REG_SP 0xFFFFFFFF).reg REG_SP ∧
      (machine0.setReg REG_SP 0xFFFFFFFF).reg REG_SP - m'.reg REG_SP < 16 ∧
      (∀ x, 16 ∣ x → x ≤ (machine0.setReg REG_SP 0xFFFFFFFF).reg REG_SP →
        x ≤ m'.reg REG_SP) ∧
      (∀ r, r ≠ REG_SP → m'.reg r = (machine0.setReg REG_SP 0xFFFFFFFF).reg r) ∧
      m'.pc = (machine0.setReg REG_SP 0xFFFFFFFF).pc ∧
      m'.counter = (machine0.setReg REG_SP 0xFFFFFFFF).counter ∧
      m'.m_stopped = (machine0.setReg REG_SP 0xFFFFFFFF).m_stopped ∧
      m'.m_syscall_handlers
        = (machine0.setReg REG_SP 0xFFFFFFFF).m_syscall_handlers ∧
      realign_stack 4 16 m' = .ok () m' :=
  realign_stack_aligns 4 16 (machine0.setReg REG_SP 0xFFFFFFFF) (by decide)
    (Or.inr (Or.inr rfl)) (by decide)

/-! ## Call set-up -/

/-- The argument loop of `setup_call`, entered at index `arg`: register
`REG_ARG0 + arg + i` receives argument `i`, registers outside the written
range keep their value, and nothing but registers changes. -/
theorem setup_call_args_effect :
    ∀ (args : List Nat) (arg : Nat) (m : Machine H),
      (∀ i (hi : i < args.length),
        (setup_call_args args arg m).reg (REG_ARG0 + arg + i) = args[i]) ∧
      (∀ r, ¬ (REG_ARG0 + arg ≤ r ∧ r < REG_ARG0 + arg + args.length) →
        (setup_call_args args arg m).reg r = m.reg r) ∧
      (setup_call_args args arg m).pc = m.pc ∧
      (setup_call_args args arg m).counter = m.counter ∧
      (setup_call_args args arg m).m_stopped = m.m_stopped ∧
      (setup_call_args args arg m).m_syscall_handlers = m.m_syscall_handlers ∧
      (setup_call_args args arg m).throw_on_unhandled_syscall
        = m.throw_on_unhandled_syscall ∧
      (setup_call_args args arg m).m_exit_address = m.m_exit_address := by
  intro args
  induction args with
  | nil =>
    intro arg m
    exact ⟨fun i hi => absurd hi (Nat.not_lt_zero i), fun _ _ => rfl,
      rfl, rfl, rfl, rfl, rfl, rfl⟩
  | cons a rest ih =>
    intro arg m
    obtain ⟨h1, h2, h3, h4, h5, h6, h7, h8⟩ :=
      ih (arg + 1) (m.setReg (REG_ARG0 + arg) a)
    refine ⟨?_, ?_, h3, h4, h5, h6, h7, h8⟩
    · intro i hi
      cases i with
      | zero =>
        show (setup_call_args rest (arg + 1) (m.setReg (REG_ARG0 + arg) a)).reg
          (REG_ARG0 + arg + 0) = a
        rw [h2 (REG_ARG0 + arg + 0) (by omega)]
        simp [reg, setReg]
      | succ j =>
        have hj : j < rest.length := by simpa using hi
        have := h1 j hj
        show (setup_call_args rest (arg + 1) (m.setReg (REG_ARG0 + arg) a)).reg
          (REG_ARG0 + arg + (j + 1)) = rest[j]
        rw [← this]
        congr 1
        omega
    · intro r hr
      have hlen : (a :: rest).length = rest.length + 1 := rfl
      rw [hlen] at hr
      show (setup_call_args rest (arg + 1) (m.setReg (REG_ARG0 + arg) a)).reg r
        = m.reg r
      rw [h2 r (by omega)]
      have hne : r ≠ REG_ARG0 + arg := by omega
      simp [reg, setReg, hne]

/-- Claim C8. For an argument list of at most 8 entries,
`setup_call(call, ret, args)` is `cpu.jump(call)` run on a machine `m1` with
`ra = ret`, `a_i = args[i]` for every `i < |args|`, every other register and
all other state as before; with a jump that sets the pc it returns normally
with `pc = call`. `vmcall(name, args, exec, max)` runs this set-up with
`call = resolve_address(name)` and `ret = exit_address`, then returns `0`
(`exec` false) or runs `simulate(max)` on the result (`exec` true). -/
theorem setup_call_effect
    (cpu_simulate : Machine H → Outcome (Machine H) Unit)
    (cpu_jump : Nat → Machine H → Outcome (Machine H) Unit)
    (resolve_address : String → Nat)
    (call_addr retn_addr : Nat) (args : List Nat) (m : Machine H)
    (hargs : args.length ≤ 8) :
    (∃ m1 : Machine H,
      m1.reg REG_RA = retn_addr ∧
      (∀ i (hi : i < args.length), m1.reg (REG_ARG0 + i) = args[i]) ∧
      (∀ r, r ≠ REG_RA → ¬ (REG_ARG0 ≤ r ∧ r < REG_ARG0 + args.length) →
        m1.reg r = m.reg r) ∧
      m1.pc = m.pc ∧ m1.counter = m.counter ∧ m1.m_stopped = m.m_stopped ∧
      m1.m_syscall_handlers = m.m_syscall_handlers ∧
      setup_call cpu_jump call_addr retn_addr args m = cpu_jump call_addr m1 ∧
      setup_call CPU_jump call_addr retn_addr args m
        = .ok () { m1 with pc := call_addr }) ∧
    (∀ (function_name : String) (max_instructions fuel : Nat),
      vmcall cpu_simulate cpu_jump resolve_address function_name args false
          max_instructions fuel m
        = (match setup_call cpu_jump (resolve_address function_name)
              m.m_exit_address args m with
            | .raised e m' => some (.raised e m')
            | .ok _ m1 => some (.ok 0 m1)) ∧
      vmcall cpu_simulate cpu_jump resolve_address function_name args true
          max_instructions fuel m
        = (match setup_call cpu_jump (resolve_address function_name)
              m.m_exit_address args m with
            | .raised e m' => some (.raised e m')
            | .ok _ m1 =>
              match simulate cpu_simulate max_instructions fuel m1 with
              | none => none
              | some (.raised e m') => some (.raised e m')
              | some (.ok _ m2) => some (.ok (toLong (m2.sysarg REG_RETVAL)) m2))) := by
  constructor
  · obtain ⟨h1, h2, h3, h4, h5, h6, _, _⟩ :=
      setup_call_args_effect args 0 (m.setReg REG_RA retn_addr)
    have hnot : ¬ ¬ args.length ≤ 8 := not_not.mpr hargs
    refine ⟨setup_call_args args 0 (m.setReg REG_RA retn_addr),
      ?_, ?_, ?_, h3, h4, h5, h6, ?_, ?_⟩
    · rw [h2 REG_RA (by simp [REG_RA, REG_ARG0])]
      simp [reg, setReg]
    · intro i hi
      have := h1 i hi
      rwa [Nat.add_zero] at this
    · intro r hra hr
      rw [h2 r (by rwa [Nat.add_zero])]
      simp [reg, setReg, hra]
    · simp only [setup_call, hnot, if_false]
    · simp only [setup_call, hnot, if_false, CPU_jump]
  · intro function_name max_instructions fuel
    constructor
    · simp only [vmcall]
      cases setup_call cpu_jump (resolve_address function_name)
        m.m_exit_address args m <;> simp
    · simp only [vmcall]
      cases setup_call cpu_jump (resolve_address function_name)
        m.m_exit_address args m <;> simp

/-- Witness of C8: a call with three arguments on `machine0`. -/
theorem setup_call_effect_witness :
    ∃ m1 : Machine Nat,
      m1.reg REG_RA = 0x2000 ∧
      (∀ i (hi : i < [1, 2, 3].length), m1.reg (REG_ARG0 + i) = [1, 2, 3][i]) ∧
      (∀ r, r ≠ REG_RA → ¬ (REG_ARG0 ≤ r ∧ r < REG_ARG0 + [1, 2, 3].length) →
        m1.reg r = machine0.reg r) ∧
      m1.pc = machine0.pc ∧ m1.counter = machine0.counter ∧
      m1.m_stopped = machine0.m_stopped ∧
      m1.m_syscall_handlers = machine0.m_syscall_handlers ∧
      setup_call CPU_jump 0x1000 0x2000 [1, 2, 3] machine0
        = CPU_jump 0x1000 m1 ∧
      setup_call CPU_jump 0x1000 0x2000 [1, 2, 3] machine0
        = .ok () { m1 with pc := 0x1000 } :=
  (setup_call_effect tick CPU_jump sampleResolve 0x1000 0x2000 [1, 2, 3]
    machine0 (by decide)).1

/-- Counterexample to C9 as stated: with nine arguments `setup_call` and
`vmcall` fail by the assertion, not with `INVALID_ARGUMENT`. -/
theorem setup_call_nine_args_not_invalid_argument :
    setup_call CPU_jump 0x1000 0 [1, 2, 3, 4, 5, 6, 7, 8, 9] machine0
      = .raised .assertionFailed machine0 ∧
    (¬ ∃ msg data s,
      setup_call CPU_jump 0x1000 0 [1, 2, 3, 4, 5, 6, 7, 8, 9] machine0
        = .raised (.machineException .INVALID_ARGUMENT msg data) s) ∧
    (¬ ∃ msg data s,
      vmcall tick CPU_jump sampleResolve "f" [1, 2, 3, 4, 5, 6, 7, 8, 9] true
          0 1 machine0
        = some (.raised (.machineException .INVALID_ARGUMENT msg data) s)) := by
  refine ⟨rfl, ?_, ?_⟩
  · rintro ⟨msg, data, s, h⟩
    simp [setup_call] at h
  · rintro ⟨msg, data, s, h⟩
    simp [vmcall, setup_call] at h

/-- Claim C9, amended. For an argument list of more than 8 entries,
`setup_call` fails on its `assert(args.size() <= 8)`, and so does `vmcall`
(whatever `exec` and the budget are); the machine at the failure is the
machine on entry: no register and no pc has been modified. -/
theorem setup_call_too_many_args
    (cpu_simulate : Machine H → Outcome (Machine H) Unit)
    (cpu_jump : Nat → Machine H → Outcome (Machine H) Unit)
    (resolve_address : String → Nat)
    (call_addr retn_addr : Nat) (args : List Nat) (m : Machine H)
    (hargs : 8 < args.length) :
    setup_call cpu_jump call_addr retn_addr args m
      = .raised .assertionFailed m ∧
    (∀ (function_name : String) (exec : Bool) (max_instructions fuel : Nat),
      vmcall cpu_simulate cpu_jump resolve_address function_name args exec
          max_instructions fuel m
        = some (.raised .assertionFailed m)) := by
  have hnot : ¬ args.length ≤ 8 := by omega
  have h : ∀ c r, setup_call cpu_jump c r args m = .raised .assertionFailed m := by
    intro c r
    simp only [setup_call, hnot, not_false_eq_true, if_true]
  refine ⟨h _ _, ?_⟩
  intro function_name exec max_instructions fuel
  simp only [vmcall, h]

/-- Witness of C9, amended: nine arguments on `machine0`. -/
theorem setup_call_too_many_args_witness :
    setup_call CPU_jump 0x1000 0 [1, 2, 3, 4, 5, 6, 7, 8, 9] machine0
      = .raised .assertionFailed machine0 ∧
    (∀ (function_name : String) (exec : Bool) (max_instructions fuel : Nat),
      vmcall tick CPU_jump sampleResolve function_name
          [1, 2, 3, 4, 5, 6, 7, 8, 9] exec max_instructions fuel machine0
        = some (.raised .assertionFailed machine0)) :=
  setup_call_too_many_args tick CPU_jump sampleResolve 0x1000 0
    [1, 2, 3, 4, 5, 6, 7, 8, 9] machine0 (by decide)

/-! ## The system-call table -/

/-- A number that no install in the list names has, after the installs, the
entry it had before. -/
theorem install_all_other (l : List (Int × H)) :
    ∀ (m : Machine H) (k : Int), k ∉ l.map Prod.fst →
      (install_all m l).m_syscall_handlers k = m.m_syscall_handlers k := by
  induction l with
  | nil => intro m k _; rfl
  | cons p rest ih =>
    intro m k hk
    have hk' : k ≠ p.1 ∧ k ∉ rest.map Prod.fst := by
      simpa [List.map_cons, List.mem_cons, not_or] using hk
    show (install_all (m.install_syscall_handler p.1 p.2) rest).m_syscall_handlers k
      = m.m_syscall_handlers k
    rw [ih _ k hk'.2]
    simp [install_syscall_handler, hk'.1]

/-- Claim C10. After `install_syscall_handler(n, h)`: `get_syscall_handler(n)`
returns `h`; `system_call(n)` runs `h` (writing its result to `a0` unless
`n` is `SYSCALL_EBREAK`, passing on its failure); a later install for `n`
replaces `h`; the entry of every `k ≠ n` is unchanged; the install changes
nothing but the table; and on a table built from the empty one by installs,
`get_syscall_handler(k)` for a `k` never installed fails. -/
theorem syscall_table_round_trip (W : Nat)
    (call : H → Machine H → Outcome (Machine H) Nat) (n : Int) (h : H)
    (m : Machine H) :
    get_syscall_handler (m.install_syscall_handler n h) n
      = .ok h (m.install_syscall_handler n h) ∧
    (∀ ret m', call h (m.install_syscall_handler n h) = .ok ret m' →
      system_call W call n (m.install_syscall_handler n h)
        = .ok () (if n ≠ SYSCALL_EBREAK then m'.setReg REG_RETVAL ret else m')) ∧
    (∀ e m', call h (m.install_syscall_handler n h) = .raised e m' →
      system_call W call n (m.install_syscall_handler n h) = .raised e m') ∧
    (∀ h2 : H,
      get_syscall_handler
          ((m.install_syscall_handler n h).install_syscall_handler n h2) n
        = .ok h2 ((m.install_syscall_handler n h).install_syscall_handler n h2)) ∧
    (∀ k, k ≠ n →
      (m.install_syscall_handler n h).m_syscall_handlers k
        = m.m_syscall_handlers k) ∧
    ((m.install_syscall_handler n h).regs = m.regs ∧
      (m.install_syscall_handler n h).pc = m.pc ∧
      (m.install_syscall_handler n h).counter = m.counter ∧
      (m.install_syscall_handler n h).m_stopped = m.m_stopped) ∧
    (∀ (l : List (Int × H)) (k : Int),
      m.m_syscall_handlers = (fun _ => none) → k ∉ l.map Prod.fst →
      get_syscall_handler (install_all m l) k
        = .raised .outOfRange (install_all m l)) := by
  have hget : ∀ (m₁ : Machine H) (h₁ : H),
      (m₁.install_syscall_handler n h₁).m_syscall_handlers n = some h₁ := by
    intro m₁ h₁
    simp [install_syscall_handler]
  refine ⟨?_, ?_, ?_, ?_, ?_, ⟨rfl, rfl, rfl, rfl⟩, ?_⟩
  · simp only [get_syscall_handler, hget]
  · intro ret m' hc
    simp only [system_call, hget, hc]
    split <;> rfl
  · intro e m' hc
    simp only [system_call, hget, hc]
  · intro h2
    simp only [get_syscall_handler, hget]
  · intro k hk
    simp [install_syscall_handler, hk]
  · intro l k hempty hk
    have : (install_all m l).m_syscall_handlers k = none := by
      rw [install_all_other l m k hk, hempty]
    simp only [get_syscall_handler, this]

/-- Witness of C10: handler 1 installed for syscall 93 on `machine0`, run
through `system_call`, and a lookup of the never-installed number 3 after
installs for 1 and 2. -/
theorem syscall_table_round_trip_witness :
    system_call 4 sampleCall 93 (machine0.install_syscall_handler 93 1)
      = .ok () (if (93 : Int) ≠ SYSCALL_EBREAK then
          (((machine0.install_syscall_handler 93 1).setReg 11 7).stop
            true).setReg REG_RETVAL 101
        else ((machine0.install_syscall_handler 93 1).setReg 11 7).stop true) ∧
    (machine0.install_syscall_handler 93 1).m_syscall_handlers 94
      = machine0.m_syscall_handlers 94 ∧
    get_syscall_handler (install_all machine0 [(1, 5), (2, 6)]) 3
      = .raised .outOfRange (install_all machine0 [(1, 5), (2, 6)]) :=
  ⟨(syscall_table_round_trip 4 sampleCall 93 1 machine0).2.1 101 _ rfl,
   (syscall_table_round_trip 4 sampleCall 93 1 machine0).2.2.2.2.1 94
      (by decide),
   (syscall_table_round_trip 4 sampleCall 93 1 machine0).2.2.2.2.2.2
      [(1, 5), (2, 6)] 3 rfl (by decide)⟩

/-! ## Reset -/

/-- Claim C11. `Machine::reset()` is `cpu.reset()` followed by
`memory.reset()` and writes nothing itself; with the two calls as the spec
describes them, for every machine, also one on which `stop()` has been
called, `reset()` returns normally with the stop flag cleared (`stopped()`
is false), all registers zero, `pc = start_address` and counter 0, and
everything else as before. -/
theorem reset_clears_stop_flag (m : Machine H) :
    (∃ m', reset CPU_reset Memory_reset m = .ok () m' ∧
      m'.stopped = false ∧ (∀ r, m'.reg r = 0) ∧
      m'.pc = m.m_start_address ∧ m'.counter = 0 ∧
      m'.m_syscall_handlers = m.m_syscall_handlers ∧
      m'.throw_on_unhandled_syscall = m.throw_on_unhandled_syscall ∧
      m'.m_exit_address = m.m_exit_address ∧
      m'.m_start_address = m.m_start_address) ∧
    (∃ m', reset CPU_reset Memory_reset (m.stop true) = .ok () m' ∧
      (m.stop true).stopped = true ∧ m'.stopped = false) ∧
    reset CPU_reset Memory_reset (m.stop true)
      = reset CPU_reset Memory_reset (m.stop false) :=
  ⟨⟨_, rfl, rfl, fun _ => rfl, rfl, rfl, rfl, rfl, rfl, rfl⟩,
   ⟨_, rfl, rfl, rfl⟩, rfl⟩

/-! ## EBREAK and failures -/

/-- Counterexample to C12 as stated: with no handler installed and
`throw_on_unhandled_syscall` on, `system_call(SYSCALL_EBREAK)` raises
`UNHANDLED_SYSCALL`. -/
theorem system_call_ebreak_raises_unhandled :
    system_call 4 sampleCall SYSCALL_EBREAK
        { machine0 with throw_on_unhandled_syscall := true }
      = .raised (.machineException .UNHANDLED_SYSCALL "Unhandled system call"
          SYSCALL_EBREAK) { machine0 with throw_on_unhandled_syscall := true } :=
  rfl

/-- Claim C12, amended. `system_call(SYSCALL_EBREAK)` raises an error of its
own only with no handler installed and `throw_on_unhandled_syscall` on, and
then it is `UNHANDLED_SYSCALL` with detail `SYSCALL_EBREAK` on the unchanged
machine; with a handler installed it fails exactly when the handler fails,
with the handler's failure; with no handler and the option off it returns
normally. -/
theorem system_call_ebreak_failures (W : Nat)
    (call : H → Machine H → Outcome (Machine H) Nat) (m : Machine H) :
    (∀ h, m.m_syscall_handlers SYSCALL_EBREAK = some h →
      (∀ e m', system_call W call SYSCALL_EBREAK m = .raised e m' ↔
        call h m = .raised e m')) ∧
    (m.m_syscall_handlers SYSCALL_EBREAK = none →
      m.throw_on_unhandled_syscall = false →
      ∃ m', system_call W call SYSCALL_EBREAK m = .ok () m') ∧
    (m.m_syscall_handlers SYSCALL_EBREAK = none →
      m.throw_on_unhandled_syscall = true →
      system_call W call SYSCALL_EBREAK m
        = .raised (.machineException .UNHANDLED_SYSCALL
            "Unhandled system call" SYSCALL_EBREAK) m) := by
  refine ⟨?_, ?_, ?_⟩
  · intro h hh e m'
    simp only [system_call, hh]
    cases hc : call h m with
    | raised e1 m1 => simp
    | ok ret m1 => simp
  · intro hh ht
    exact ⟨m, by simp [system_call, hh, ht]⟩
  · intro hh ht
    simp [system_call, hh, ht]

/-- Witness of C12, amended: EBREAK on `machine0` with the option off and
with the option on. -/
theorem system_call_ebreak_failures_witness :
    (∃ m', system_call 4 sampleCall SYSCALL_EBREAK machine0 = .ok () m') ∧
    system_call 4 sampleCall SYSCALL_EBREAK
        { machine0 with throw_on_unhandled_syscall := true }
      = .raised (.machineException .UNHANDLED_SYSCALL "Unhandled system call"
          SYSCALL_EBREAK) { machine0 with throw_on_unhandled_syscall := true } :=
  ⟨(system_call_ebreak_failures 4 sampleCall machine0).2.1 rfl rfl,
   (system_call_ebreak_failures 4 sampleCall
      { machine0 with throw_on_unhandled_syscall := true }).2.2 rfl rfl⟩

/-! ## Copies to the guest -/

/-- Claim C13. When `memory.memcpy(dst, buf, len)` does not fail,
`copy_to_guest(dst, buf, len)` leaves the machine as `memcpy` left it and
returns `(dst + len) mod 2 ^ (8 * W)`, which is `dst + len`, one past the
last byte written, when that fits `address_t`; a failure of `memcpy` is
passed on. -/
theorem copy_to_guest_returns_end (W : Nat)
    (memory_memcpy : Nat → List Nat → Nat → Machine H → Outcome (Machine H) Unit)
    (dst : Nat) (buf : List Nat) (len : Nat) (m : Machine H)
    (hW : W = 4 ∨ W = 8) :
    (∀ m', memory_memcpy dst buf len m = .ok () m' →
      copy_to_guest W memory_memcpy dst buf len m
        = .ok ((dst + len) % 2 ^ (8 * W)) m' ∧
      (dst + len < 2 ^ (8 * W) →
        copy_to_guest W memory_memcpy dst buf len m = .ok (dst + len) m')) ∧
    (∀ e m', memory_memcpy dst buf len m = .raised e m' →
      copy_to_guest W memory_memcpy dst buf len m = .raised e m') := by
  have hdvd : 2 ^ (8 * W) ∣ 2 ^ 64 := by
    rcases hW with h | h <;> subst h
    · exact Nat.pow_dvd_pow 2 (by decide)
    · exact Nat.pow_dvd_pow 2 (by decide)
  have hmod : ((dst + len) % 2 ^ 64) % 2 ^ (8 * W) = (dst + len) % 2 ^ (8 * W) :=
    Nat.mod_mod_of_dvd _ hdvd
  constructor
  · intro m' hc
    have h1 : copy_to_guest W memory_memcpy dst buf len m
        = .ok ((dst + len) % 2 ^ (8 * W)) m' := by
      simp only [copy_to_guest, hc, hmod]
    refine ⟨h1, fun hlt => ?_⟩
    rw [h1, Nat.mod_eq_of_lt hlt]
  · intro e m' hc
    simp only [copy_to_guest, hc]

/-- Witness of C13: a copy of 16 bytes to `0xFFFFFFF8` on a 32-bit machine
(the end address wraps to 8), and a copy to `0x2000`. -/
theorem copy_to_guest_returns_end_witness :
    copy_to_guest 4 sampleMemcpy 0xFFFFFFF8 (List.replicate 16 0) 16 machine0
      = .ok ((0xFFFFFFF8 + 16) % 2 ^ (8 * 4)) machine0 ∧
    copy_to_guest 4 sampleMemcpy 0x2000 (List.replicate 16 0) 16 machine0
      = .ok (0x2000 + 16) machine0 :=
  ⟨((copy_to_guest_returns_end 4 sampleMemcpy 0xFFFFFFF8 (List.replicate 16 0)
      16 machine0 (Or.inl rfl)).1 machine0 rfl).1,
   ((copy_to_guest_returns_end 4 sampleMemcpy 0x2000 (List.replicate 16 0)
      16 machine0 (Or.inl rfl)).1 machine0 rfl).2 (by decide)⟩

/-! ## The value of `vmcall` -/

/-- The value `vmcall` returns after a run is the content of register
`REG_ARG0 + REG_RETVAL`, which is `x20`, converted to `long`. -/
theorem vmcall_return_register
    (cpu_simulate : Machine H → Outcome (Machine H) Unit)
    (cpu_jump : Nat → Machine H → Outcome (Machine H) Unit)
    (resolve_address : String → Nat) (function_name : String)
    (args : List Nat) (max_instructions fuel : Nat) (m : Machine H)
    (v : Int) (m2 : Machine H)
    (h : vmcall cpu_simulate cpu_jump resolve_address function_name args true
      max_instructions fuel m = some (.ok v m2)) :
    v = toLong (m2.reg 20) := by
  simp only [vmcall] at h
  cases hs : setup_call cpu_jump (resolve_address function_name)
      m.m_exit_address args m with
  | raised e m' => rw [hs] at h; simp at h
  | ok u m1 =>
    rw [hs] at h
    simp only [if_true] at h
    cases hr : simulate cpu_simulate max_instructions fuel m1 with
    | none => rw [hr] at h; simp at h
    | some o =>
      rw [hr] at h
      cases o with
      | raised e m' => simp at h
      | ok k m3 =>
        simp only [Option.some.injEq, Outcome.ok.injEq] at h
        obtain ⟨hv, hm⟩ := h
        rw [← hv, ← hm]
        rfl

/-- Claim C19 at a failing input: a guest function whose single step writes
42 to `a0` and stops. `vmcall` with `exec = true` returns normally with
`a0 = 42` in the machine, and the value it returns is 0, the content of
`x20`; with `exec = false` it returns 0 and leaves the counter alone. -/
theorem vmcall_returns_x20_not_a0 :
    (∃ m2, vmcall stepReturn42 CPU_jump sampleResolve "f" [] true 0 5 machine0
        = some (.ok 0 m2) ∧
      m2.reg REG_RETVAL = 42 ∧ m2.reg 20 = 0 ∧
      m2.sysarg REG_RETVAL = m2.reg 20) ∧
    (∃ m1, vmcall stepReturn42 CPU_jump sampleResolve "f" [] false 0 5 machine0
        = some (.ok 0 m1) ∧ m1.counter = machine0.counter) :=
  ⟨⟨_, rfl, rfl, rfl, rfl⟩, ⟨_, rfl, rfl⟩⟩

/-! ## A pending stop -/

/-- A normal return of the bounded loop entered at machine `m`: either `m`
has the stop flag set and no step runs, or at least one step runs, the steps
lead from `m` to the final machine, and the last of them was started with
the flag clear; the loop exits on a set flag or on the limit. -/
theorem simulate_bounded_return
    (step : Machine H → Outcome (Machine H) Unit) (limit : Nat) :
    ∀ (fuel executed : Nat) (m : Machine H) (k : Nat) (m' : Machine H),
      simulate_bounded step limit fuel executed m = some (.ok k m') →
      ∃ j, k = executed + j ∧ RunsTo step j m m' ∧
        (m'.m_stopped = true ∨ (1 ≤ j ∧ limit ≤ m'.counter)) ∧
        ((m.m_stopped = true ∧ j = 0) ∨
          (m.m_stopped = false ∧ 1 ≤ j ∧
            ∃ a, a.m_stopped = false ∧ step a = .ok () m')) := by
  intro fuel
  induction fuel with
  | zero => intro executed m k m' h; simp [simulate_bounded] at h
  | succ fuel ih =>
    intro executed m k m' h
    simp only [simulate_bounded, stopped] at h
    by_cases hs : m.m_stopped = true
    · simp only [hs, if_true, Option.some.injEq, Outcome.ok.injEq] at h
      obtain ⟨hk, hm⟩ := h
      subst hm
      exact ⟨0, by omega, RunsTo.zero m, Or.inl hs, Or.inl ⟨hs, rfl⟩⟩
    · have hs' : m.m_stopped = false := by
        cases hb : m.m_stopped
        · rfl
        · exact absurd hb hs
      simp only [hs', Bool.false_eq_true, if_false] at h
      cases hc : step m with
      | raised e m1 => rw [hc] at h; simp at h
      | ok u m1 =>
        rw [hc] at h
        simp only [] at h
        by_cases hl : m1.counter ≥ limit
        · rw [if_pos hl] at h
          simp only [Option.some.injEq, Outcome.ok.injEq] at h
          obtain ⟨hk, hm⟩ := h
          subst hm
          exact ⟨1, by omega, RunsTo.succ hs' hc (RunsTo.zero m1),
            Or.inr ⟨Nat.le_refl 1, hl⟩, Or.inr ⟨hs', Nat.le_refl 1, m, hs', hc⟩⟩
        · rw [if_neg hl] at h
          obtain ⟨j, hj, hrun, hexit, hlast⟩ := ih (executed + 1) m1 k m' h
          refine ⟨j + 1, by omega, RunsTo.succ hs' hc hrun, ?_, Or.inr ⟨hs', by omega, ?_⟩⟩
          · rcases hexit with he | ⟨_, he⟩
            · exact Or.inl he
            · exact Or.inr ⟨by omega, he⟩
          · rcases hlast with ⟨_, hj0⟩ | ⟨_, _, a, ha, hstep⟩
            · subst hj0
              cases hrun
              exact ⟨m, hs', hc⟩
            · exact ⟨a, ha, hstep⟩

/-- A normal return of the unbounded loop entered at machine `m`: as for the
bounded loop, and the final machine has the stop flag set. -/
theorem simulate_unbounded_return
    (step : Machine H → Outcome (Machine H) Unit) :
    ∀ (fuel executed : Nat) (m : Machine H) (k : Nat) (m' : Machine H),
      simulate_unbounded step fuel executed m = some (.ok k m') →
      ∃ j, k = executed + j ∧ RunsTo step j m m' ∧ m'.m_stopped = true ∧
        ((m.m_stopped = true ∧ j = 0) ∨
          (m.m_stopped = false ∧ 1 ≤ j ∧
            ∃ a, a.m_stopped = false ∧ step a = .ok () m')) := by
  intro fuel
  induction fuel with
  | zero => intro executed m k m' h; simp [simulate_unbounded] at h
  | succ fuel ih =>
    intro executed m k m' h
    simp only [simulate_unbounded, stopped] at h
    by_cases hs : m.m_stopped = true
    · simp only [hs, if_true, Option.some.injEq, Outcome.ok.injEq] at h
      obtain ⟨hk, hm⟩ := h
      subst hm
      exact ⟨0, by omega, RunsTo.zero m, hs, Or.inl ⟨hs, rfl⟩⟩
    · have hs' : m.m_stopped = false := by
        cases hb : m.m_stopped
        · rfl
        · exact absurd hb hs
      simp only [hs', Bool.false_eq_true, if_false] at h
      cases hc : step m with
      | raised e m1 => rw [hc] at h; simp at h
      | ok u m1 =>
        rw [hc] at h
        simp only [] at h
        obtain ⟨j, hj, hrun, hexit, hlast⟩ := ih (executed + 1) m1 k m' h
        refine ⟨j + 1, by omega, RunsTo.succ hs' hc hrun, hexit,
          Or.inr ⟨hs', by omega, ?_⟩⟩
        rcases hlast with ⟨_, hj0⟩ | ⟨_, _, a, ha, hstep⟩
        · subst hj0
          cases hrun
          exact ⟨m, hs', hc⟩
        · exact ⟨a, ha, hstep⟩

/-- Claim C20. `simulate` clears the stop flag first: its result is the same
whether or not `stop()` was called before; and on every normal return after
`k` steps in machine `m'`, `k ≥ 1`, the `k` steps lead from the machine on
entry with the flag cleared to `m'`, the last of them was started with the
flag clear (so the flag of `m'` is set exactly when that step left it set),
and if the flag of `m'` is clear then `max_instr ≠ 0` and the counter has
reached the limit. -/
theorem simulate_discards_pending_stop
    (step : Machine H → Outcome (Machine H) Unit) (max_instr fuel : Nat)
    (m : Machine H) :
    simulate step max_instr fuel (m.stop true)
      = simulate step max_instr fuel (m.stop false) ∧
    (∀ k m', simulate step max_instr fuel m = some (.ok k m') →
      1 ≤ k ∧ RunsTo step k { m with m_stopped := false } m' ∧
      (∃ a, a.m_stopped = false ∧ step a = .ok () m') ∧
      (m'.m_stopped = false →
        max_instr ≠ 0 ∧ (max_instr + m.counter) % 2 ^ 64 ≤ m'.counter)) := by
  refine ⟨rfl, ?_⟩
  intro k m' h
  by_cases hz : max_instr = 0
  · simp only [simulate, hz, ne_eq, not_true_eq_false, if_false] at h
    obtain ⟨j, hj, hrun, hexit, hlast⟩ := simulate_unbounded_return step _ _ _ _ _ h
    rcases hlast with ⟨hset, _⟩ | ⟨_, hj1, hl⟩
    · simp at hset
    · have hk : k = j := by omega
      subst hk
      refine ⟨hj1, hrun, hl, ?_⟩
      intro hclear
      rw [hexit] at hclear
      cases hclear
  · simp only [simulate, hz, ne_eq, not_false_eq_true, if_true] at h
    obtain ⟨j, hj, hrun, hexit, hlast⟩ :=
      simulate_bounded_return step _ _ _ _ _ _ h
    rcases hlast with ⟨hset, _⟩ | ⟨_, hj1, hl⟩
    · simp at hset
    · have hk : k = j := by omega
      subst hk
      refine ⟨hj1, hrun, hl, ?_⟩
      intro hclear
      rcases hexit with he | ⟨_, he⟩
      · rw [he] at hclear
        cases hclear
      · exact ⟨hz, he⟩

/-- Witness of C20: `simulate(0)` with the step `tickStop3` on `machine0`
after `stop()`. -/
theorem simulate_discards_pending_stop_witness :
    1 ≤ 3 ∧
    RunsTo tickStop3 3 { machine0.stop true with m_stopped := false }
      (stop3Trace 3) ∧
    (∃ a, a.m_stopped = false ∧ tickStop3 a = .ok () (stop3Trace 3)) ∧
    ((stop3Trace 3).m_stopped = false →
      (0 : Nat) ≠ 0 ∧ (0 + (machine0.stop true).counter) % 2 ^ 64
        ≤ (stop3Trace 3).counter) :=
  (simulate_discards_pending_stop tickStop3 0 9 (machine0.stop true)).2 3
    (stop3Trace 3) rfl

end Machine

/-! ## The decoder cache: page geometry -/

namespace Memory

/-- A mask below `2 ^ n` sees only the low `n` bits. -/
theorem land_eq_mod_land (x M n : Nat) (hM : M < 2 ^ n) :
    x &&& M = (x % 2 ^ n) &&& M := by
  apply Nat.eq_of_testBit_eq
  intro i
  rw [Nat.testBit_and, Nat.testBit_and, Nat.testBit_mod_two_pow]
  by_cases hi : i < n
  · simp [hi]
  · have : M.testBit i = false :=
      Nat.testBit_lt_two_pow
        (lt_of_lt_of_le hM (Nat.pow_le_pow_right (by decide) (by omega)))
    simp [this]

/-- The mask `~PMASK` of width `W` clears the low 12 bits and the bits from
`8 * W` on. -/
theorem land_bitNot_PMASK (W x : Nat) (hW : W = 4 ∨ W = 8) :
    x &&& Machine.bitNot W PMASK = x % 2 ^ (8 * W) - x % 4096 := by
  have h12 : 12 ≤ 8 * W := by rcases hW with h | h <;> omega
  have hpos : 0 < 2 ^ (8 * W) := Nat.two_pow_pos _
  have hM : Machine.bitNot W PMASK < 2 ^ (8 * W) := by
    simp only [Machine.bitNot]; omega
  rw [land_eq_mod_land x _ (8 * W) hM]
  have h := Machine.land_not_low_mask (x % 2 ^ (8 * W)) (8 * W) 12 h12
    (Nat.mod_lt _ hpos)
  have hmm : x % 2 ^ (8 * W) % 2 ^ 12 = x % 4096 :=
    Nat.mod_mod_of_dvd _ (Nat.pow_dvd_pow 2 h12)
  rw [hmm] at h
  exact h

/-- The test `PMASK & x` reads the low 12 bits of `x`. -/
theorem PMASK_land (x : Nat) : PMASK &&& x = x % 4096 := by
  rw [Nat.and_comm]
  exact Nat.and_pow_two_sub_one_eq_mod x 12

/-- The base `pbase` is `addr` reduced to `address_t` with its low 12 bits
cleared; it is a multiple of the page size. -/
theorem pbase_eq (W addr : Nat) (hW : W = 4 ∨ W = 8) :
    pbase W addr = addr % 2 ^ (8 * W) - addr % 4096 ∧ pbase W addr % 4096 = 0 := by
  have h := land_bitNot_PMASK W addr hW
  have h12 : 12 ≤ 8 * W := by rcases hW with h | h <;> omega
  have hmm : addr % 2 ^ (8 * W) % 2 ^ 12 = addr % 4096 :=
    Nat.mod_mod_of_dvd _ (Nat.pow_dvd_pow 2 h12)
  simp only [pbase]
  refine ⟨h, ?_⟩
  rw [h]
  have : (2:Nat) ^ 12 = 4096 := by decide
  rw [this] at hmm
  omega

/-- The length `plen` is a multiple of the page size. -/
theorem plen_mod (W addr len : Nat) (hW : W = 4 ∨ W = 8) :
    plen W addr len % 4096 = 0 := by
  have h12 : 12 ≤ 8 * W := by rcases hW with h | h <;> omega
  simp only [plen]
  split
  · rw [land_bitNot_PMASK W _ hW]
    have hmm : ∀ x : Nat, x % 2 ^ (8 * W) % 2 ^ 12 = x % 4096 :=
      fun x => Nat.mod_mod_of_dvd _ (Nat.pow_dvd_pow 2 h12)
    have := hmm ((midlen W addr len + PageSize) % 2 ^ 64)
    have h4 : (2:Nat) ^ 12 = 4096 := by decide
    rw [h4] at this
    omega
  · rename_i hz
    rw [PMASK_land] at hz
    simpa using hz

/-- Claim C14. With `pbase = addr & ~4095` and the biased pointer
`m_exec_decoder = slot0 - pbase / DIVISOR`, for every `pc` with
`pbase ≤ pc < pbase + plen` the fetch index `pc / DIVISOR` relative to
`m_exec_decoder` is entry `(pc mod PageSize) / DIVISOR` of cache page
`cacheno = (pc - pbase) >> 12`, the entry pregeneration writes; the cache page
is one of the `n_pages` allocated, the entry lies inside the allocated
`n_pages * (PageSize / DIVISOR)` entries, and two distinct `DIVISOR`-aligned
addresses of the range have distinct entries. -/
theorem decoder_cache_flat_addressing (W : Nat) (compressed_enabled : Bool)
    (addr len pc : Nat) (hW : W = 4 ∨ W = 8)
    (hlo : pbase W addr ≤ pc) (hhi : pc < pbase W addr + plen W addr len) :
    m_exec_decoder W compressed_enabled addr
        + ((pc / DecoderCache.DIVISOR compressed_enabled : Nat) : Int)
      = ((DecoderCache.flat_index compressed_enabled
          (page_number (pc - pbase W addr))
          ((pc &&& (PageSize - 1)) / DecoderCache.DIVISOR compressed_enabled)
          : Nat) : Int) ∧
    page_number (pc - pbase W addr) < n_pages W addr len ∧
    (pc &&& (PageSize - 1)) / DecoderCache.DIVISOR compressed_enabled
      < DecoderCache.entries compressed_enabled ∧
    DecoderCache.flat_index compressed_enabled
        (page_number (pc - pbase W addr))
        ((pc &&& (PageSize - 1)) / DecoderCache.DIVISOR compressed_enabled)
      < n_pages W addr len * DecoderCache.entries compressed_enabled ∧
    (∀ pc', pbase W addr ≤ pc' → pc' < pbase W addr + plen W addr len →
      DecoderCache.DIVISOR compressed_enabled ∣ pc →
      DecoderCache.DIVISOR compressed_enabled ∣ pc' → pc ≠ pc' →
      m_exec_decoder W compressed_enabled addr
          + ((pc / DecoderCache.DIVISOR compressed_enabled : Nat) : Int)
        ≠ m_exec_decoder W compressed_enabled addr
          + ((pc' / DecoderCache.DIVISOR compressed_enabled : Nat) : Int)) := by
  obtain ⟨_, hpb⟩ := pbase_eq W addr hW
  have hpl := plen_mod W addr len hW
  have hoff : pc &&& (PageSize - 1) = pc % 4096 :=
    Nat.and_pow_two_sub_one_eq_mod pc 12
  have hpn : page_number (pc - pbase W addr) = (pc - pbase W addr) / 4096 := by
    simp only [page_number, Page_SHIFT, Nat.shiftRight_eq_div_pow]
  rw [hoff, hpn]
  simp only [m_exec_decoder, DecoderCache.flat_index, DecoderCache.entries,
    n_pages, PageSize]
  generalize pbase W addr = pb at *
  generalize plen W addr len = pl at *
  cases compressed_enabled
  · simp only [DecoderCache.DIVISOR, Bool.false_eq_true, if_false]
    refine ⟨by omega, by omega, by omega, by omega, ?_⟩
    intro pc' h1 h2 h3 h4 h5
    omega
  · simp only [DecoderCache.DIVISOR, if_true]
    refine ⟨by omega, by omega, by omega, by omega, ?_⟩
    intro pc' h1 h2 h3 h4 h5
    omega

/-- Witness of C14: the address `0x1006` of a segment at `0x1004`, 32-bit,
compressed extension enabled. -/
theorem decoder_cache_flat_addressing_witness :
    m_exec_decoder 4 true 0x1004
        + ((0x1006 / DecoderCache.DIVISOR true : Nat) : Int)
      = ((DecoderCache.flat_index true (page_number (0x1006 - pbase 4 0x1004))
          ((0x1006 &&& (PageSize - 1)) / DecoderCache.DIVISOR true) : Nat) : Int) ∧
    page_number (0x1006 - pbase 4 0x1004) < n_pages 4 0x1004 8 :=
  ⟨(decoder_cache_flat_addressing 4 true 0x1004 8 0x1006 (Or.inl rfl)
      (by decide) (by decide)).1,
   (decoder_cache_flat_addressing 4 true 0x1004 8 0x1006 (Or.inl rfl)
      (by decide) (by decide)).2.1⟩

/-- Counterexample to C15 as stated: a 32-bit segment at address 0 of length
`2 ^ 32 - 100`. `addr + len` does not overflow, the segment overlaps
`2 ^ 20` pages, and `generate_decoder_cache` computes `plen = 0` and
`n_pages = 0`. -/
theorem decoder_cache_pages_top_of_address_space :
    (0 : Nat) + 4294967196 < 2 ^ (8 * 4) ∧
    plen 4 0 4294967196 = 0 ∧ n_pages 4 0 4294967196 = 0 ∧
    (0 + 4294967196 - 1) / 4096 - 0 / 4096 + 1 = 1048576 ∧
    ¬ (0 + 4294967196 ≤ pbase 4 0 + plen 4 0 4294967196) := by
  decide

/-- Claim C15, amended. For a segment base `addr` and length `len ≥ 1` with
`addr + len` below `2 ^ (8 * W)` and with `(addr mod 4096) + len` rounded up
to a multiple of 4096 below `2 ^ (8 * W)`: `plen` is that rounded length,
`n_pages = plen / 4096` is the number of guest pages that overlap
`[addr, addr + len)`, `pbase ≤ addr`, `addr + len ≤ pbase + plen`,
`plen - ((addr - pbase) + len) < 4096`, and a cache page holds
`PageSize / DIVISOR` entries (2048 with the compressed extension, else
1024). -/
theorem decoder_cache_page_coverage (W addr len : Nat) (hW : W = 4 ∨ W = 8)
    (hlen : 1 ≤ len) (hsum : addr + len < 2 ^ (8 * W))
    (hfit : (addr % 4096 + len + 4095) / 4096 * 4096 < 2 ^ (8 * W)) :
    pbase W addr = addr / 4096 * 4096 ∧
    plen W addr len = (addr % 4096 + len + 4095) / 4096 * 4096 ∧
    n_pages W addr len = plen W addr len / 4096 ∧
    n_pages W addr len = (addr + len - 1) / 4096 - addr / 4096 + 1 ∧
    pbase W addr ≤ addr ∧
    addr + len ≤ pbase W addr + plen W addr len ∧
    plen W addr len - ((addr - pbase W addr) + len) < 4096 ∧
    (∀ c, DecoderCache.entries c = PageSize / DecoderCache.DIVISOR c) ∧
    DecoderCache.entries true = 2048 ∧ DecoderCache.entries false = 1024 := by
  have hN : 2 ^ (8 * W) ≤ 2 ^ 64 :=
    Nat.pow_le_pow_right (by decide) (by rcases hW with h | h <;> omega)
  have hNm : 2 ^ (8 * W) % 4096 = 0 := by
    rcases hW with h | h <;> subst h <;> decide
  obtain ⟨hpb, _⟩ := pbase_eq W addr hW
  have haddr : addr % 2 ^ (8 * W) = addr := Nat.mod_eq_of_lt (by omega)
  rw [haddr] at hpb
  have hpre : prelen W addr = addr % 4096 := by
    simp only [prelen, hpb]; omega
  have hmid : midlen W addr len = len + addr % 4096 := by
    simp only [midlen, hpre]
    exact Nat.mod_eq_of_lt (by omega)
  have hpl : plen W addr len = (addr % 4096 + len + 4095) / 4096 * 4096 := by
    simp only [plen, hmid, PMASK_land, PageSize]
    split
    · rename_i hnz
      have h64 : (len + addr % 4096 + 4096) % 2 ^ 64 = len + addr % 4096 + 4096 :=
        Nat.mod_eq_of_lt (by omega)
      rw [h64, land_bitNot_PMASK W _ hW]
      have hlt : len + addr % 4096 + 4096 < 2 ^ (8 * W) := by omega
      rw [Nat.mod_eq_of_lt hlt]
      omega
    · rename_i hz
      omega
  have hnp : n_pages W addr len = plen W addr len / 4096 := rfl
  refine ⟨by omega, hpl, hnp, ?_, by omega, by omega, by omega,
    fun _ => rfl, rfl, rfl⟩
  rw [hnp, hpl]
  omega

/-- Witness of C15, amended: a 32-bit segment of 8 bytes at `0x1ffc`, which
overlaps two pages. -/
theorem decoder_cache_page_coverage_witness :
    pbase 4 0x1ffc = 0x1ffc / 4096 * 4096 ∧
    plen 4 0x1ffc 8 = (0x1ffc % 4096 + 8 + 4095) / 4096 * 4096 ∧
    n_pages 4 0x1ffc 8 = plen 4 0x1ffc 8 / 4096 ∧
    n_pages 4 0x1ffc 8 = (0x1ffc + 8 - 1) / 4096 - 0x1ffc / 4096 + 1 ∧
    pbase 4 0x1ffc ≤ 0x1ffc ∧
    0x1ffc + 8 ≤ pbase 4 0x1ffc + plen 4 0x1ffc 8 ∧
    plen 4 0x1ffc 8 - ((0x1ffc - pbase 4 0x1ffc) + 8) < 4096 ∧
    (∀ c, DecoderCache.entries c = PageSize / DecoderCache.DIVISOR c) ∧
    DecoderCache.entries true = 2048 ∧ DecoderCache.entries false = 1024 :=
  decoder_cache_page_coverage 4 0x1ffc 8 (Or.inl rfl) (by decide) (by decide)
    (by decide)

/-! ## The decoder cache: pregeneration -/

set_option maxRecDepth 100000 in
/-- Claim C16 at a failing input: a 32-bit machine with the compressed
extension, an execute segment of 8 bytes at `0x1002` (2 modulo 4) that holds
`addi x0, x0, 0` at `0x1002` and `0x1006`. Pregeneration terminates; the
walk from `pbase = 0x1000` in steps of 4 passes over `0x1002`, and the entry
of the first instruction address `0x1002` is still 0, not the index 2 of the
handler its word `0x00000013` decodes to. -/
theorem pregen_skips_segment_base :
    pbase 4 0x1002 = 0x1000 ∧
    (generate_decoder_cache 4 true Machine.sampleTranslate Machine.sampleTree Machine.nopPageData2
      0x1002 8 1100).isSome = true ∧
    exec_word Machine.nopPageData2 (pbase 4 0x1002) 0x1002 = 0x13 ∧
    Machine.sampleTranslate (CPU.decode Machine.sampleTree
      (exec_word Machine.nopPageData2 (pbase 4 0x1002) 0x1002)).handler = 2 ∧
    cached_index 4 true Machine.sampleTranslate Machine.sampleTree Machine.nopPageData2 0x1002 8 1100
      0x1002 = 0 := by
  decide

set_option maxRecDepth 100000 in
/-- Claim C17 at a failing input: a 32-bit machine with the compressed
extension (`DIVISOR = 2`), an execute segment of 4 bytes at `0x1000`. The
address `0x1006` lies in `[pbase, pbase + plen)` and outside the segment;
the padding walk advances by 4 from `0x1004`, and the entry of `0x1006` is
still 0, not the index 1 of the illegal-instruction handler, while the
entries of `0x1004` and `0x1008` hold that index. -/
theorem pregen_padding_skips_halfword_slots :
    DecoderCache.DIVISOR true = 2 ∧
    pbase 4 0x1000 ≤ 0x1006 ∧ 0x1006 < pbase 4 0x1000 + plen 4 0x1000 4 ∧
    ¬ (0x1000 ≤ 0x1006 ∧ 0x1006 < 0x1000 + 4) ∧
    (generate_decoder_cache 4 true Machine.sampleTranslate Machine.sampleTree Machine.nopPageData
      0x1000 4 1100).isSome = true ∧
    Machine.sampleTranslate (CPU.decode Machine.sampleTree 0).handler = 1 ∧
    cached_index 4 true Machine.sampleTranslate Machine.sampleTree Machine.nopPageData 0x1000 4 1100
      0x1006 = 0 ∧
    cached_index 4 true Machine.sampleTranslate Machine.sampleTree Machine.nopPageData 0x1000 4 1100
      0x1004 = 1 ∧
    cached_index 4 true Machine.sampleTranslate Machine.sampleTree Machine.nopPageData 0x1000 4 1100
      0x1008 = 1 := by
  decide

end Memory

/-! ## Direct execution and decode-then-dispatch -/

namespace CPU

/-- An expansion of the decoding tree is the macro body applied to the
descriptor that `decode` returns. -/
theorem expand_eq_apply_decode {Hd Pr α : Type} (f : instruction_t Hd Pr → α)
    (tree : DecodingTree Hd Pr) (instruction : Nat) :
    tree.expand f instruction = f (decode tree instruction) := by
  induction tree with
  | DECODER x => rfl
  | test cond yes no ihy ihn =>
    simp only [decode, DecodingTree.expand] at ihy ihn ⊢
    split
    · exact ihy
    · exact ihn

/-- Claim C18. For every decoding tree (that of `rv32i.cpp`, `W = 4`, and
that of `rv64i.cpp`, `W = 8`), every CPU state and every instruction word
`i`, `execute(i)` is the call `decode(i).handler(cpu, i)`: same final state
or same failure; and `decode` depends on the word alone: equal words give
equal descriptors. -/
theorem execute_eq_decode_dispatch {Hd Pr σ : Type}
    (invoke : Hd → σ → Nat → Outcome σ Unit) (tree : DecodingTree Hd Pr) :
    (∀ (cpu : σ) (i : Nat),
      execute invoke tree cpu i = invoke (decode tree i).handler cpu i) ∧
    (∀ i j : Nat, i = j → decode tree i = decode tree j) := by
  refine ⟨fun cpu i => ?_, fun i j h => by rw [h]⟩
  exact expand_eq_apply_decode (fun x => invoke x.handler cpu i) tree i

/-- Witness of C18: the two-descriptor tree on `machine0` and the word
`0x00000013`. -/
theorem execute_eq_decode_dispatch_witness :
    execute Machine.sampleInvoke Machine.sampleTree Machine.machine0 0x13
      = Machine.sampleInvoke (decode Machine.sampleTree 0x13).handler
          Machine.machine0 0x13 ∧
    decode Machine.sampleTree 0x13 = decode Machine.sampleTree (0x10 + 3) :=
  ⟨(execute_eq_decode_dispatch Machine.sampleInvoke Machine.sampleTree).1
      Machine.machine0 0x13,
   (execute_eq_decode_dispatch Machine.sampleInvoke Machine.sampleTree).2
      0x13 (0x10 + 3) rfl⟩

end CPU

end riscv
